import Mathlib

/-!
Shallow embedding of the TCP chat server (`src/backend/server.js`).

JavaScript strings are modelled as lists of characters (`Str`), the
`users` Map as an association list in insertion order, a socket as a
numeric identifier together with a set of already-destroyed sockets kept
in the server state, and each handler as a pure function from a server
state (plus the event data) to a new server state and the list of lines
written to sockets, in order.
-/

set_option maxHeartbeats 1000000

namespace ChatServer

/-- JavaScript strings are modelled as lists of characters. -/
abbrev Str := List Char

/-- Embed a Lean string literal as a character list. -/
def str (s : String) : Str := s.data

/-- Whitespace characters recognised by trimming. -/
def jsIsWs (c : Char) : Bool := c = ' ' || c = '\t' || c = '\r' || c = '\n'

/-- Model of `String.prototype.trim` on character lists. -/
def jsTrimList (l : Str) : Str :=
  ((l.dropWhile jsIsWs).reverse.dropWhile jsIsWs).reverse

/-- Model of `String.prototype.split(' ')`: split at every single space. -/
def splitChar : Str → List Str
  | [] => [[]]
  | c :: rest =>
    match splitChar rest with
    | [] => [[]]
    | t :: ts => if c = ' ' then [] :: t :: ts else (c :: t) :: ts

/-- Model of `Array.prototype.join(' ')`. -/
def joinSp : List Str → Str
  | [] => []
  | [t] => t
  | t :: ts => t ++ ' ' :: joinSp ts

/-- Model of `String.prototype.toUpperCase` (ASCII letters). -/
def upperTok (t : Str) : Str := t.map Char.toUpper

/-- Per-user record stored in the users map: socket, lastActivity, disconnecting. -/
structure UserData where
  socket : Nat
  lastActivity : Nat
  disconnecting : Bool
deriving DecidableEq, Repr, Inhabited

/-- Server state: the users map (in insertion order) and the destroyed sockets. -/
structure ServerState where
  users : List (Str × UserData)
  destroyed : List Nat
deriving DecidableEq, Repr, Inhabited

/-- One write: the target socket and the line written (without the newline). -/
abbrev Send := Nat × Str

/-- Model of `Map.prototype.get` on the association list. -/
def mapGet : List (Str × UserData) → Str → Option UserData
  | [], _ => none
  | p :: rest, k => if p.1 = k then some p.2 else mapGet rest k

/-- Model of `Map.prototype.has`. -/
def mapHas (m : List (Str × UserData)) (k : Str) : Bool := (mapGet m k).isSome

/-- Model of `Map.prototype.set`: update in place, else append. -/
def mapSet : List (Str × UserData) → Str → UserData → List (Str × UserData)
  | [], k, v => [(k, v)]
  | p :: rest, k, v => if p.1 = k then (k, v) :: rest else p :: mapSet rest k v

/-- Model of `Map.prototype.delete`. -/
def mapDelete : List (Str × UserData) → Str → List (Str × UserData)
  | [], _ => []
  | p :: rest, k => if p.1 = k then rest else p :: mapDelete rest k

/-- `sendToSocket(socket, message)`: write one line unless the socket is destroyed. -/
def sendToSocket (st : ServerState) (sock : Nat) (msg : Str) : List Send :=
  if sock ∈ st.destroyed then [] else [(sock, msg)]

/-- `broadcast(message, excludeSocket)`: send to every user whose socket is neither
excluded nor destroyed, in map order. -/
def broadcast (st : ServerState) (msg : Str) (ex : Option Nat) : List Send :=
  st.users.filterMap fun p =>
    if ex = some p.2.socket then none
    else if p.2.socket ∈ st.destroyed then none
    else some (p.2.socket, msg)

/-- `broadcastToAll(message)`: send to every user whose socket is not destroyed. -/
def broadcastToAll (st : ServerState) (msg : Str) : List Send :=
  st.users.filterMap fun p =>
    if p.2.socket ∈ st.destroyed then none else some (p.2.socket, msg)

/-- `getUsernameBySocket(socket)`: first username whose record holds this socket. -/
def getUsernameBySocket : List (Str × UserData) → Nat → Option Str
  | [], _ => none
  | p :: rest, sock => if p.2.socket = sock then some p.1 else getUsernameBySocket rest sock

/-- `updateActivity(socket)`: refresh lastActivity of the user owning the socket. -/
def updateActivity (st : ServerState) (sock now : Nat) : ServerState :=
  match getUsernameBySocket st.users sock with
  | none => st
  | some username =>
    match mapGet st.users username with
    | none => st
    | some d => { st with users := mapSet st.users username { d with lastActivity := now } }

/-- `socket.destroy()`: mark the socket destroyed (if it is not already). -/
def destroySocket (st : ServerState) (sock : Nat) : ServerState :=
  if sock ∈ st.destroyed then st else { st with destroyed := sock :: st.destroyed }

/-- `handleDisconnect(socket)`: guarded removal of the session, broadcast of the
departure notice computed on the map after the removal, then socket destruction. -/
def handleDisconnect (st : ServerState) (sock : Nat) : ServerState × List Send :=
  match getUsernameBySocket st.users sock with
  | some username =>
    if (mapGet st.users username).any (·.disconnecting) then (st, [])
    else
      let st1 : ServerState := { st with users := mapDelete st.users username }
      (destroySocket st1 sock,
       broadcast st1 (str "INFO " ++ username ++ str " disconnected") none)
  | none => (destroySocket st sock, [])

/-- `handleCommand(socket, data)`: trim, update activity, parse and dispatch. -/
def handleCommand (st : ServerState) (sock : Nat) (data : Str) (now : Nat) :
    ServerState × List Send :=
  let message := jsTrimList data
  if message = [] then (st, [])
  else
    let st1 := updateActivity st sock now
    let username := getUsernameBySocket st1.users sock
    let parts := splitChar message
    let command := upperTok (parts.headD [])
    if command = str "LOGIN" then
      match username with
      | some _ => (st1, sendToSocket st1 sock (str "ERR already-logged-in"))
      | none =>
        let newUsername := jsTrimList (joinSp (parts.drop 1))
        if newUsername = [] then (st1, sendToSocket st1 sock (str "ERR invalid-username"))
        else if mapHas st1.users newUsername then
          (st1, sendToSocket st1 sock (str "ERR username-taken"))
        else
          let st2 : ServerState :=
            { st1 with users := mapSet st1.users newUsername ⟨sock, now, false⟩ }
          (st2, sendToSocket st2 sock (str "OK"))
    else
      match username with
      | none => (st1, sendToSocket st1 sock (str "ERR not-logged-in"))
      | some uname =>
        if command = str "MSG" then
          let text := jsTrimList (joinSp (parts.drop 1))
          if text = [] then (st1, sendToSocket st1 sock (str "ERR empty-message"))
          else (st1, broadcastToAll st1 (str "MSG " ++ uname ++ str " " ++ text))
        else if command = str "WHO" then
          if st1.users.length = 0 then
            (st1, sendToSocket st1 sock (str "INFO no-users-online"))
          else
            (st1, st1.users.flatMap fun p => sendToSocket st1 sock (str "USER " ++ p.1))
        else if command = str "DM" then
          if parts.length < 3 then (st1, sendToSocket st1 sock (str "ERR invalid-dm-format"))
          else
            let targetUsername := parts.getD 1 []
            let text := jsTrimList (joinSp (parts.drop 2))
            if text = [] then (st1, sendToSocket st1 sock (str "ERR empty-message"))
            else
              match mapGet st1.users targetUsername with
              | none => (st1, sendToSocket st1 sock (str "ERR user-not-found"))
              | some targetData =>
                if targetData.socket ∈ st1.destroyed then
                  (st1, sendToSocket st1 sock (str "ERR user-not-found"))
                else
                  (st1, sendToSocket st1 targetData.socket
                          (str "DM " ++ uname ++ str " " ++ text) ++
                        sendToSocket st1 sock (str "DM-SENT " ++ targetUsername))
        else if command = str "PING" then (st1, sendToSocket st1 sock (str "PONG"))
        else (st1, sendToSocket st1 sock (str "ERR unknown-command"))

/-- Idle threshold (60 seconds in milliseconds). -/
def IDLE_TIMEOUT : Nat := 60000

/-- Selection test of the idle sweep: inactive beyond the threshold and not
already disconnecting. -/
def selPred (now : Nat) (p : Str × UserData) : Bool :=
  decide (now - p.2.lastActivity > IDLE_TIMEOUT) && !p.2.disconnecting

/-- One iteration of the eviction loop of `checkIdleUsers`: best-effort idle
notice, then the teardown path. -/
def sweepStep (acc : ServerState × List Send) (us : Str × Nat) : ServerState × List Send :=
  let infoOut := sendToSocket acc.1 us.2 (str "INFO disconnected-due-to-inactivity")
  let r := handleDisconnect acc.1 us.2
  (r.1, acc.2 ++ (infoOut ++ r.2))

/-- `checkIdleUsers()`: compute the full selection first, then evict each
selected user in order. -/
def checkIdleUsers (st : ServerState) (now : Nat) : ServerState × List Send :=
  let usersToDisconnect := st.users.filterMap fun p =>
    if selPred now p then some (p.1, p.2.socket) else none
  usersToDisconnect.foldl sweepStep (st, [])

/-- Recursive form of the eviction loop, used to state how each selected
user's idle notice precedes that user's teardown output. -/
def sweepRun : ServerState → List (Str × Nat) → ServerState × List Send
  | stc, [] => (stc, [])
  | stc, us :: rest =>
    let infoOut := sendToSocket stc us.2 (str "INFO disconnected-due-to-inactivity")
    let r := handleDisconnect stc us.2
    let k := sweepRun r.1 rest
    (k.1, infoOut ++ r.2 ++ k.2)

/-- The events the server reacts to: a line of data on a socket, a
disconnect-capable event on a socket, or a timer tick of the idle sweep. -/
inductive Event where
  | line (sock : Nat) (data : Str) (now : Nat)
  | disconnect (sock : Nat)
  | sweep (now : Nat)
deriving DecidableEq, Repr

/-- The state before any connection: empty map, no destroyed socket. -/
def initState : ServerState := ⟨[], []⟩

/-- Dispatch one event to its handler. -/
def applyEvent (st : ServerState) (e : Event) : ServerState × List Send :=
  match e with
  | .line sock data now => handleCommand st sock data now
  | .disconnect sock => handleDisconnect st sock
  | .sweep now => checkIdleUsers st now

/-- Run a sequence of events from the initial state. -/
def runEvents (es : List Event) : ServerState :=
  es.foldl (fun st e => (applyEvent st e).1) initState

/-- A state is reachable when some event sequence produces it. -/
def Reachable (st : ServerState) : Prop := ∃ es, runEvents es = st

/-- Structural invariant of reachable states: usernames are pairwise distinct,
sockets of registered users are pairwise distinct, and no registered record has
its disconnecting flag set. -/
def goodState (st : ServerState) : Prop :=
  (st.users.map Prod.fst).Nodup ∧ (st.users.map fun p => p.2.socket).Nodup ∧
    ∀ p ∈ st.users, p.2.disconnecting = false

/-! ### Lemmas about the string model -/

theorem splitChar_ne_nil (l : Str) : splitChar l ≠ [] := by
  induction l with
  | nil => simp [splitChar]
  | cons c rest ih =>
    obtain ⟨t, ts, h⟩ := List.exists_cons_of_ne_nil ih
    simp only [splitChar, h]
    by_cases hc : c = ' ' <;> simp [hc]

theorem splitChar_cons (c : Char) (l : Str) :
    splitChar (c :: l) = if c = ' ' then [] :: splitChar l
      else (c :: (splitChar l).headD []) :: (splitChar l).tail := by
  obtain ⟨t, ts, h⟩ := List.exists_cons_of_ne_nil (splitChar_ne_nil l)
  simp only [splitChar, h]
  split <;> simp

theorem joinSp_nil : joinSp [] = [] := rfl

theorem joinSp_single (t : Str) : joinSp [t] = t := rfl

theorem joinSp_cons_cons (t u : Str) (ts : List Str) :
    joinSp (t :: u :: ts) = t ++ ' ' :: joinSp (u :: ts) := rfl

theorem joinSp_splitChar (l : Str) : joinSp (splitChar l) = l := by
  induction l with
  | nil => rfl
  | cons c rest ih =>
    rw [splitChar_cons]
    obtain ⟨t, ts, h⟩ := List.exists_cons_of_ne_nil (splitChar_ne_nil rest)
    rw [h] at ih ⊢
    by_cases hc : c = ' '
    · subst hc
      rw [if_pos rfl, joinSp_cons_cons, ih]
      rfl
    · rw [if_neg hc]
      cases ts with
      | nil =>
        simp only [List.headD_cons, List.tail_cons, joinSp_single] at ih ⊢
        rw [ih]
      | cons u ts2 =>
        simp only [List.headD_cons, List.tail_cons, joinSp_cons_cons] at ih ⊢
        rw [List.cons_append, ih]

theorem mem_splitChar_no_space {l t : Str} (ht : t ∈ splitChar l) : ' ' ∉ t := by
  induction l generalizing t with
  | nil =>
    simp only [splitChar, List.mem_singleton] at ht
    subst ht; simp
  | cons c rest ih =>
    rw [splitChar_cons] at ht
    obtain ⟨t0, ts, h⟩ := List.exists_cons_of_ne_nil (splitChar_ne_nil rest)
    rw [h] at ht
    simp only [List.headD_cons, List.tail_cons] at ht
    by_cases hc : c = ' '
    · rw [if_pos hc] at ht
      rcases List.mem_cons.mp ht with h1 | h1
      · subst h1; simp
      · exact ih (by rw [h]; exact h1)
    · rw [if_neg hc] at ht
      rcases List.mem_cons.mp ht with h1 | h1
      · subst h1
        intro hmem
        rcases List.mem_cons.mp hmem with h2 | h2
        · exact hc h2.symm
        · have ht0 : t0 ∈ splitChar rest := by
            rw [h]; exact List.mem_cons_self _ _
          exact ih ht0 h2
      · have htmem : t ∈ splitChar rest := by
          rw [h]; exact List.mem_cons.mpr (Or.inr h1)
        exact ih htmem

theorem splitChar_append_token (a b : Str) (ha : ∀ c ∈ a, c ≠ ' ') :
    splitChar (a ++ ' ' :: b) = a :: splitChar b := by
  induction a with
  | nil =>
    rw [List.nil_append, splitChar_cons, if_pos rfl]
  | cons c a2 ih =>
    have hc : c ≠ ' ' := ha c (List.mem_cons_self _ _)
    have ha2 : ∀ x ∈ a2, x ≠ ' ' := fun x hx => ha x (List.mem_cons.mpr (Or.inr hx))
    rw [List.cons_append, splitChar_cons, if_neg hc, ih ha2]
    simp

theorem splitChar_concat (l : Str) (c : Char) (hc : c ≠ ' ') :
    ∃ ts t, splitChar l = ts ++ [t] ∧ splitChar (l ++ [c]) = ts ++ [t ++ [c]] := by
  induction l with
  | nil =>
    refine ⟨[], [], rfl, ?_⟩
    rw [List.nil_append, splitChar_cons, if_neg hc]
    simp [splitChar]
  | cons d rest ih =>
    obtain ⟨ts, t, h1, h2⟩ := ih
    by_cases hd : d = ' '
    · subst hd
      refine ⟨[] :: ts, t, ?_, ?_⟩
      · rw [splitChar_cons, if_pos rfl, h1]; rfl
      · rw [List.cons_append, splitChar_cons, if_pos rfl, h2]; rfl
    · cases ts with
      | nil =>
        refine ⟨[], d :: t, ?_, ?_⟩
        · rw [splitChar_cons, if_neg hd, h1]; simp
        · rw [List.cons_append, splitChar_cons, if_neg hd, h2]; simp
      | cons t0 ts2 =>
        refine ⟨(d :: t0) :: ts2, t, ?_, ?_⟩
        · rw [splitChar_cons, if_neg hd, h1]; simp
        · rw [List.cons_append, splitChar_cons, if_neg hd, h2]; simp

theorem dropWhile_head_not {p : Char → Bool} {l r : Str} {c : Char}
    (h : l.dropWhile p = c :: r) : p c = false := by
  induction l with
  | nil => simp at h
  | cons a l2 ih =>
    rw [List.dropWhile_cons] at h
    by_cases hp : p a = true
    · rw [if_pos hp] at h; exact ih h
    · rw [if_neg hp] at h
      injection h with h1 _
      subst h1
      cases ha : p a with
      | false => rfl
      | true => exact absurd ha hp

theorem jsTrimList_decomp {d : Str} (h : jsTrimList d ≠ []) :
    ∃ m c, jsTrimList d = m ++ [c] ∧ jsIsWs c = false := by
  unfold jsTrimList at h ⊢
  cases hx : (d.dropWhile jsIsWs).reverse.dropWhile jsIsWs with
  | nil => rw [hx] at h; simp at h
  | cons c Y =>
    refine ⟨Y.reverse, c, ?_, dropWhile_head_not hx⟩
    simp

theorem trim_cons_ws {a : Char} (l : Str) (ha : jsIsWs a = true) :
    jsTrimList (a :: l) = jsTrimList l := by
  unfold jsTrimList
  rw [List.dropWhile_cons, if_pos ha]

theorem trim_concat_nonws {c : Char} (l : Str) (hc : jsIsWs c = false) :
    jsTrimList (l ++ [c]) = l.dropWhile jsIsWs ++ [c] := by
  induction l with
  | nil =>
    simp [jsTrimList, List.dropWhile, hc]
  | cons a l2 ih =>
    by_cases ha : jsIsWs a = true
    · rw [List.cons_append, trim_cons_ws _ ha, ih, List.dropWhile_cons, if_pos ha]
    · have ha2 : jsIsWs a = false := by
        cases h : jsIsWs a with
        | false => rfl
        | true => exact absurd h ha
      simp [jsTrimList, List.dropWhile_cons, ha2, hc]

theorem trim_eq_nil_all {l : Str} (h : jsTrimList l = []) : ∀ x ∈ l, jsIsWs x = true := by
  unfold jsTrimList at h
  rw [List.reverse_eq_nil_iff] at h
  rw [List.dropWhile_eq_nil_iff] at h
  have h2 : ∀ x ∈ l.dropWhile jsIsWs, jsIsWs x = true := by
    intro x hx
    exact h x (List.mem_reverse.mpr hx)
  intro x hx
  rw [← List.takeWhile_append_dropWhile jsIsWs l] at hx
  rcases List.mem_append.mp hx with h3 | h3
  · exact List.mem_takeWhile_imp h3
  · exact h2 x h3

theorem mem_joinSp {c : Char} {t : Str} {ts : List Str} (ht : t ∈ ts) (hc : c ∈ t) :
    c ∈ joinSp ts := by
  induction ts with
  | nil => simp at ht
  | cons u ts2 ih =>
    cases ts2 with
    | nil =>
      rw [List.mem_singleton] at ht
      subst ht
      simpa using hc
    | cons v ts3 =>
      rw [joinSp_cons_cons]
      rcases List.mem_cons.mp ht with h1 | h1
      · subst h1
        exact List.mem_append.mpr (Or.inl hc)
      · exact List.mem_append.mpr (Or.inr (List.mem_cons.mpr (Or.inr (ih h1))))

/-- Core of the dead-branch argument for DM: a trimmed non-empty line whose
split has at least three tokens has a non-empty joined-and-trimmed text after
the first two tokens. -/
theorem dm_text_ne_nil {data : Str} (hmsg : jsTrimList data ≠ [])
    (hlen : 3 ≤ (splitChar (jsTrimList data)).length) :
    jsTrimList (joinSp ((splitChar (jsTrimList data)).drop 2)) ≠ [] := by
  obtain ⟨m, c, hdecomp, hc⟩ := jsTrimList_decomp hmsg
  have hc2 : c ≠ ' ' := by
    intro h; subst h; simp [jsIsWs] at hc
  obtain ⟨ts, t, _, h2⟩ := splitChar_concat m c hc2
  rw [hdecomp] at hlen ⊢
  rw [h2] at hlen ⊢
  have hts : 2 ≤ ts.length := by
    rw [List.length_append, List.length_singleton] at hlen; omega
  rw [List.drop_append_of_le_length hts]
  have htmem : (t ++ [c]) ∈ ts.drop 2 ++ [t ++ [c]] := by simp
  have hcmem : c ∈ joinSp (ts.drop 2 ++ [t ++ [c]]) := mem_joinSp htmem (by simp)
  intro hnil
  have hall := trim_eq_nil_all hnil c hcmem
  rw [hc] at hall
  exact Bool.false_ne_true hall

/-! ### Lemmas about the map model and the lookup helpers -/

theorem mapGet_eq_none_iff {m : List (Str × UserData)} {k : Str} :
    mapGet m k = none ↔ ∀ p ∈ m, p.1 ≠ k := by
  induction m with
  | nil => simp [mapGet]
  | cons p rest ih =>
    by_cases h : p.1 = k <;> simp [mapGet, h, ih]

theorem mapGet_mem {m : List (Str × UserData)} {k : Str} {d : UserData}
    (h : mapGet m k = some d) : (k, d) ∈ m := by
  induction m with
  | nil => simp [mapGet] at h
  | cons p rest ih =>
    by_cases hp : p.1 = k
    · rw [mapGet, if_pos hp] at h
      injection h with h1
      subst h1
      subst hp
      exact List.mem_cons_self _ _
    · rw [mapGet, if_neg hp] at h
      exact List.mem_cons.mpr (Or.inr (ih h))

theorem mapGet_of_mem_nodup {m : List (Str × UserData)} {k : Str} {d : UserData}
    (hnd : (m.map Prod.fst).Nodup) (h : (k, d) ∈ m) : mapGet m k = some d := by
  induction m with
  | nil => simp at h
  | cons p rest ih =>
    rw [List.map_cons, List.nodup_cons] at hnd
    rcases List.mem_cons.mp h with h1 | h1
    · rw [← h1, mapGet, if_pos rfl]
    · have hk : k ∈ rest.map Prod.fst := List.mem_map.mpr ⟨(k, d), h1, rfl⟩
      have hne : p.1 ≠ k := fun he => hnd.1 (he ▸ hk)
      rw [mapGet, if_neg hne]
      exact ih hnd.2 h1

theorem mapHas_true_iff {m : List (Str × UserData)} {k : Str} :
    mapHas m k = true ↔ ∃ d, mapGet m k = some d := by
  rw [mapHas, Option.isSome_iff_exists]

theorem mapHas_false_iff {m : List (Str × UserData)} {k : Str} :
    mapHas m k = false ↔ mapGet m k = none := by
  rw [mapHas]
  cases mapGet m k <;> simp

theorem mapSet_fresh {m : List (Str × UserData)} {k : Str} (v : UserData)
    (h : mapGet m k = none) : mapSet m k v = m ++ [(k, v)] := by
  induction m with
  | nil => rfl
  | cons p rest ih =>
    by_cases hp : p.1 = k
    · rw [mapGet, if_pos hp] at h; exact absurd h (by simp)
    · rw [mapGet, if_neg hp] at h
      rw [mapSet, if_neg hp, ih h, List.cons_append]

theorem mapDelete_sublist (m : List (Str × UserData)) (k : Str) :
    (mapDelete m k).Sublist m := by
  induction m with
  | nil => exact List.Sublist.refl _
  | cons p rest ih =>
    rw [mapDelete]
    by_cases hp : p.1 = k
    · rw [if_pos hp]
      exact List.sublist_cons_self _ _
    · rw [if_neg hp]
      exact ih.cons₂ p

theorem mapGet_mapDelete_self {m : List (Str × UserData)} {k : Str}
    (hnd : (m.map Prod.fst).Nodup) : mapGet (mapDelete m k) k = none := by
  induction m with
  | nil => simp [mapDelete, mapGet]
  | cons p rest ih =>
    rw [List.map_cons, List.nodup_cons] at hnd
    rw [mapDelete]
    by_cases hp : p.1 = k
    · rw [if_pos hp]
      rw [mapGet_eq_none_iff]
      intro q hq he
      exact hnd.1 (hp ▸ he ▸ List.mem_map.mpr ⟨q, hq, rfl⟩)
    · rw [if_neg hp, mapGet, if_neg hp]
      exact ih hnd.2

theorem mem_mapDelete_of_mem {m : List (Str × UserData)} {k : Str} {p : Str × UserData}
    (hmem : p ∈ m) (hne : p.1 ≠ k) : p ∈ mapDelete m k := by
  induction m with
  | nil => simp at hmem
  | cons q rest ih =>
    rw [mapDelete]
    rcases List.mem_cons.mp hmem with h1 | h1
    · subst h1
      rw [if_neg hne]
      exact List.mem_cons_self _ _
    · by_cases hq : q.1 = k
      · rw [if_pos hq]; exact h1
      · rw [if_neg hq]; exact List.mem_cons.mpr (Or.inr (ih h1))

theorem getUsernameBySocket_eq_none_iff {m : List (Str × UserData)} {s : Nat} :
    getUsernameBySocket m s = none ↔ ∀ p ∈ m, p.2.socket ≠ s := by
  induction m with
  | nil => simp [getUsernameBySocket]
  | cons p rest ih =>
    by_cases h : p.2.socket = s <;> simp [getUsernameBySocket, h, ih]

theorem getUsernameBySocket_mem {m : List (Str × UserData)} {s : Nat} {u : Str}
    (h : getUsernameBySocket m s = some u) : ∃ d, (u, d) ∈ m ∧ d.socket = s := by
  induction m with
  | nil => simp [getUsernameBySocket] at h
  | cons p rest ih =>
    by_cases hp : p.2.socket = s
    · rw [getUsernameBySocket, if_pos hp] at h
      injection h with h1
      exact ⟨p.2, by rw [← h1]; exact List.mem_cons_self _ _, hp⟩
    · rw [getUsernameBySocket, if_neg hp] at h
      obtain ⟨d, hd, hds⟩ := ih h
      exact ⟨d, List.mem_cons.mpr (Or.inr hd), hds⟩

theorem getUsernameBySocket_of_mem {m : List (Str × UserData)} {u : Str} {d : UserData}
    (hnd : (m.map fun p => p.2.socket).Nodup) (h : (u, d) ∈ m) :
    getUsernameBySocket m d.socket = some u := by
  induction m with
  | nil => simp at h
  | cons p rest ih =>
    rw [List.map_cons, List.nodup_cons] at hnd
    rcases List.mem_cons.mp h with h1 | h1
    · rw [← h1, getUsernameBySocket, if_pos rfl]
    · have hs : d.socket ∈ rest.map fun p => p.2.socket :=
        List.mem_map.mpr ⟨(u, d), h1, rfl⟩
      have hne : p.2.socket ≠ d.socket := fun he => hnd.1 (he ▸ hs)
      rw [getUsernameBySocket, if_neg hne]
      exact ih hnd.2 h1

theorem socket_inj_of_nodup {m : List (Str × UserData)} {p q : Str × UserData}
    (hnd : (m.map fun r => r.2.socket).Nodup) (hp : p ∈ m) (hq : q ∈ m)
    (h : p.2.socket = q.2.socket) : p = q :=
  List.inj_on_of_nodup_map hnd hp hq h

theorem getUsernameBySocket_mapDelete_none {m : List (Str × UserData)} {s : Nat} {u : Str}
    (hkeys : (m.map Prod.fst).Nodup) (hsocks : (m.map fun p => p.2.socket).Nodup)
    (h : getUsernameBySocket m s = some u) :
    getUsernameBySocket (mapDelete m u) s = none := by
  obtain ⟨d, hd, hds⟩ := getUsernameBySocket_mem h
  rw [getUsernameBySocket_eq_none_iff]
  intro p hp hps
  have hpm : p ∈ m := (mapDelete_sublist m u).subset hp
  have hpu : p = (u, d) := socket_inj_of_nodup hsocks hpm hd (by rw [hps, hds])
  have hnone : mapGet (mapDelete m u) u = none := mapGet_mapDelete_self hkeys
  rw [mapGet_eq_none_iff] at hnone
  exact hnone p hp (by rw [hpu])

/-! ### Lemmas about socket destruction and sends -/

theorem destroySocket_users (st : ServerState) (s : Nat) :
    (destroySocket st s).users = st.users := by
  rw [destroySocket]
  split <;> rfl

theorem mem_destroySocket_destroyed {st : ServerState} {s x : Nat} :
    x ∈ (destroySocket st s).destroyed ↔ x = s ∨ x ∈ st.destroyed := by
  rw [destroySocket]
  by_cases h : s ∈ st.destroyed
  · rw [if_pos h]
    constructor
    · exact Or.inr
    · rintro (rfl | hx)
      · exact h
      · exact hx
  · rw [if_neg h]
    simp

theorem destroySocket_self_mem (st : ServerState) (s : Nat) :
    s ∈ (destroySocket st s).destroyed :=
  mem_destroySocket_destroyed.mpr (Or.inl rfl)

theorem destroySocket_of_mem {st : ServerState} {s : Nat} (h : s ∈ st.destroyed) :
    destroySocket st s = st := by
  rw [destroySocket, if_pos h]

theorem sendToSocket_live {st : ServerState} {s : Nat} (msg : Str)
    (h : s ∉ st.destroyed) : sendToSocket st s msg = [(s, msg)] := by
  rw [sendToSocket, if_neg h]

theorem sendToSocket_dead {st : ServerState} {s : Nat} (msg : Str)
    (h : s ∈ st.destroyed) : sendToSocket st s msg = [] := by
  rw [sendToSocket, if_pos h]

/-! ### Lemmas about updateActivity -/

/-- The view of an entry that every handler except the idle sweep depends on:
username, socket and disconnecting flag (everything but lastActivity). -/
def shape (m : List (Str × UserData)) : List (Str × Nat × Bool) :=
  m.map fun p => (p.1, p.2.socket, p.2.disconnecting)

theorem updateActivity_no_user {st : ServerState} {sock : Nat} (now : Nat)
    (h : getUsernameBySocket st.users sock = none) :
    updateActivity st sock now = st := by
  simp only [updateActivity, h]

theorem shape_mapSet_refresh {m : List (Str × UserData)} {k : Str} {d : UserData} (now : Nat)
    (h : mapGet m k = some d) :
    shape (mapSet m k { d with lastActivity := now }) = shape m := by
  induction m with
  | nil => simp [mapGet] at h
  | cons p rest ih =>
    by_cases hp : p.1 = k
    · rw [mapGet, if_pos hp] at h
      injection h with h1
      rw [mapSet, if_pos hp]
      simp only [shape, List.map_cons]
      rw [← h1, hp]
    · rw [mapGet, if_neg hp] at h
      rw [mapSet, if_neg hp]
      have hrec := ih h
      simp only [shape, List.map_cons] at hrec ⊢
      rw [hrec]

theorem updateActivity_shape (st : ServerState) (sock now : Nat) :
    shape (updateActivity st sock now).users = shape st.users := by
  cases hu : getUsernameBySocket st.users sock with
  | none => rw [updateActivity_no_user now hu]
  | some u =>
    cases hg : mapGet st.users u with
    | none => simp only [updateActivity, hu, hg]
    | some d =>
      simp only [updateActivity, hu, hg]
      exact shape_mapSet_refresh now hg

theorem updateActivity_destroyed (st : ServerState) (sock now : Nat) :
    (updateActivity st sock now).destroyed = st.destroyed := by
  cases hu : getUsernameBySocket st.users sock with
  | none => rw [updateActivity_no_user now hu]
  | some u =>
    cases hg : mapGet st.users u with
    | none => simp only [updateActivity, hu, hg]
    | some d => simp only [updateActivity, hu, hg]

theorem shape_getUsernameBySocket {m m2 : List (Str × UserData)} (h : shape m = shape m2)
    (s : Nat) : getUsernameBySocket m s = getUsernameBySocket m2 s := by
  induction m generalizing m2 with
  | nil =>
    cases m2 with
    | nil => rfl
    | cons q r => simp [shape] at h
  | cons p rest ih =>
    cases m2 with
    | nil => simp [shape] at h
    | cons q r =>
      simp only [shape, List.map_cons, List.cons.injEq, Prod.mk.injEq] at h
      obtain ⟨⟨h1, h2, h3⟩, h4⟩ := h
      simp only [getUsernameBySocket]
      rw [h1, h2]
      by_cases hs : q.2.socket = s
      · rw [if_pos hs, if_pos hs]
      · rw [if_neg hs, if_neg hs]
        exact ih h4

theorem shape_mapGet {m m2 : List (Str × UserData)} (h : shape m = shape m2) (k : Str) :
    ((mapGet m k).map fun d => (d.socket, d.disconnecting)) =
      ((mapGet m2 k).map fun d => (d.socket, d.disconnecting)) := by
  induction m generalizing m2 with
  | nil =>
    cases m2 with
    | nil => rfl
    | cons q r => simp [shape] at h
  | cons p rest ih =>
    cases m2 with
    | nil => simp [shape] at h
    | cons q r =>
      simp only [shape, List.map_cons, List.cons.injEq, Prod.mk.injEq] at h
      obtain ⟨⟨h1, h2, h3⟩, h4⟩ := h
      simp only [mapGet]
      rw [h1]
      by_cases hk : q.1 = k
      · rw [if_pos hk, if_pos hk]
        simp [h2, h3]
      · rw [if_neg hk, if_neg hk]
        exact ih h4

theorem shape_mapHas {m m2 : List (Str × UserData)} (h : shape m = shape m2) (k : Str) :
    mapHas m k = mapHas m2 k := by
  have := shape_mapGet h k
  rw [mapHas, mapHas]
  cases h1 : mapGet m k <;> cases h2 : mapGet m2 k <;>
    rw [h1, h2] at this <;> simp_all

theorem shape_keys {m m2 : List (Str × UserData)} (h : shape m = shape m2) :
    m.map Prod.fst = m2.map Prod.fst := by
  have := congrArg (List.map Prod.fst) h
  simpa [shape, List.map_map, Function.comp] using this

theorem shape_socks {m m2 : List (Str × UserData)} (h : shape m = shape m2) :
    (m.map fun p => p.2.socket) = m2.map fun p => p.2.socket := by
  have := congrArg (List.map fun t : Str × Nat × Bool => t.2.1) h
  simpa [shape, List.map_map, Function.comp] using this

theorem shape_length {m m2 : List (Str × UserData)} (h : shape m = shape m2) :
    m.length = m2.length := by
  have := congrArg List.length (shape_keys h)
  simpa using this

/-! ### Lemmas about handleDisconnect -/

theorem handleDisconnect_no_user {st : ServerState} {sock : Nat}
    (h : getUsernameBySocket st.users sock = none) :
    handleDisconnect st sock = (destroySocket st sock, []) := by
  simp only [handleDisconnect, h]

theorem handleDisconnect_some {st : ServerState} {sock : Nat} {name : Str}
    (hu : getUsernameBySocket st.users sock = some name)
    (hflags : ∀ p ∈ st.users, p.2.disconnecting = false) :
    handleDisconnect st sock =
      (destroySocket ⟨mapDelete st.users name, st.destroyed⟩ sock,
       broadcast ⟨mapDelete st.users name, st.destroyed⟩
         (str "INFO " ++ name ++ str " disconnected") none) := by
  have hget : (mapGet st.users name).any (·.disconnecting) = false := by
    cases hg : mapGet st.users name with
    | none => rfl
    | some d =>
      have hd : d.disconnecting = false := hflags (name, d) (mapGet_mem hg)
      simp [Option.any, hd]
  simp only [handleDisconnect, hu, hget]
  rfl

theorem handleDisconnect_idem (st : ServerState) (sock : Nat)
    (hkeys : (st.users.map Prod.fst).Nodup)
    (hsocks : (st.users.map fun p => p.2.socket).Nodup)
    (hflags : ∀ p ∈ st.users, p.2.disconnecting = false) :
    handleDisconnect (handleDisconnect st sock).1 sock = ((handleDisconnect st sock).1, []) := by
  cases hu : getUsernameBySocket st.users sock with
  | none =>
    rw [handleDisconnect_no_user hu]
    have h2 : getUsernameBySocket (destroySocket st sock).users sock = none := by
      rw [destroySocket_users]; exact hu
    show handleDisconnect (destroySocket st sock) sock = _
    rw [handleDisconnect_no_user h2, destroySocket_of_mem (destroySocket_self_mem st sock)]
  | some name =>
    rw [handleDisconnect_some hu hflags]
    show handleDisconnect (destroySocket ⟨mapDelete st.users name, st.destroyed⟩ sock) sock = _
    have h2 : getUsernameBySocket
        (destroySocket ⟨mapDelete st.users name, st.destroyed⟩ sock).users sock = none := by
      rw [destroySocket_users]
      exact getUsernameBySocket_mapDelete_none hkeys hsocks hu
    rw [handleDisconnect_no_user h2, destroySocket_of_mem (destroySocket_self_mem _ _)]

/-! ### Parsing a LOGIN line built from a clean username -/

theorem upper_LOGIN : upperTok (str "LOGIN") = str "LOGIN" := by decide

theorem dropWhile_ws_LOGIN (m : Str) :
    List.dropWhile jsIsWs (str "LOGIN " ++ m) = str "LOGIN " ++ m := by
  have h : str "LOGIN " ++ m = 'L' :: (str "OGIN " ++ m) := rfl
  rw [h, List.dropWhile_cons, if_neg (by decide)]

theorem trim_LOGIN_name {name : Str} (h1 : name ≠ []) (h2 : jsTrimList name = name) :
    jsTrimList (str "LOGIN " ++ name) = str "LOGIN " ++ name := by
  have hne : jsTrimList name ≠ [] := by rw [h2]; exact h1
  obtain ⟨m, c, hmc, hcw⟩ := jsTrimList_decomp hne
  have hname : name = m ++ [c] := by rw [← h2, hmc]
  rw [hname, ← List.append_assoc, trim_concat_nonws _ hcw, dropWhile_ws_LOGIN]

theorem split_LOGIN_name (name : Str) :
    splitChar (str "LOGIN " ++ name) = str "LOGIN" :: splitChar name := by
  have h : str "LOGIN " ++ name = str "LOGIN" ++ ' ' :: name := rfl
  rw [h]
  exact splitChar_append_token _ _ (by decide)

theorem LOGIN_line_ne_nil (name : Str) : str "LOGIN " ++ name ≠ [] := by
  have h : str "LOGIN " ++ name = 'L' :: (str "OGIN " ++ name) := rfl
  rw [h]
  exact List.cons_ne_nil _ _

/-- A LOGIN with a clean, unregistered name from a connection without a
session registers the name at the end of the map and answers OK. -/
theorem handleCommand_login_fresh (st : ServerState) (sock now : Nat) (name : Str)
    (hname1 : name ≠ []) (hname2 : jsTrimList name = name)
    (huser : getUsernameBySocket st.users sock = none)
    (hhas : mapHas st.users name = false)
    (hdest : sock ∉ st.destroyed) :
    handleCommand st sock (str "LOGIN " ++ name) now =
      ({ st with users := st.users ++ [(name, ⟨sock, now, false⟩)] }, [(sock, str "OK")]) := by
  have hmsg := trim_LOGIN_name hname1 hname2
  have hnil := LOGIN_line_ne_nil name
  have hupd := updateActivity_no_user now huser
  have hset : mapSet st.users name ⟨sock, now, false⟩ = st.users ++ [(name, ⟨sock, now, false⟩)] :=
    mapSet_fresh ⟨sock, now, false⟩ (mapHas_false_iff.mp hhas)
  simp [handleCommand, hmsg, hnil, hupd, huser, split_LOGIN_name,
    List.headD_cons, upper_LOGIN, joinSp_splitChar, hname2, hname1, hhas, hset,
    sendToSocket, hdest]

/-- C2: teardown is idempotent. For a connection holding a session, the first
invocation of the disconnect handler removes the session, destroys the socket
and emits the single departure broadcast (computed over the remaining
sessions); the second invocation changes no state and emits nothing. -/
theorem C2_teardown_idempotent (st : ServerState) (sock : Nat) (name : Str)
    (hkeys : (st.users.map Prod.fst).Nodup)
    (hsocks : (st.users.map fun p => p.2.socket).Nodup)
    (hflags : ∀ p ∈ st.users, p.2.disconnecting = false)
    (hu : getUsernameBySocket st.users sock = some name) :
    handleDisconnect (handleDisconnect st sock).1 sock = ((handleDisconnect st sock).1, []) ∧
    sock ∈ (handleDisconnect st sock).1.destroyed ∧
    (handleDisconnect st sock).2 =
      broadcast ⟨mapDelete st.users name, st.destroyed⟩
        (str "INFO " ++ name ++ str " disconnected") none := by
  refine ⟨handleDisconnect_idem st sock hkeys hsocks hflags, ?_, ?_⟩
  · rw [handleDisconnect_some hu hflags]
    exact destroySocket_self_mem _ _
  · rw [handleDisconnect_some hu hflags]

/-- Witness for C2 at a concrete two-user state. -/
theorem C2_teardown_idempotent_witness :
    handleDisconnect
        (handleDisconnect ⟨[(str "alice", ⟨1, 0, false⟩), (str "bob", ⟨2, 0, false⟩)], []⟩ 1).1
        1 =
      ((handleDisconnect ⟨[(str "alice", ⟨1, 0, false⟩), (str "bob", ⟨2, 0, false⟩)], []⟩ 1).1,
        []) ∧
    1 ∈ (handleDisconnect ⟨[(str "alice", ⟨1, 0, false⟩), (str "bob", ⟨2, 0, false⟩)], []⟩
        1).1.destroyed ∧
    (handleDisconnect ⟨[(str "alice", ⟨1, 0, false⟩), (str "bob", ⟨2, 0, false⟩)], []⟩ 1).2 =
      broadcast
        ⟨mapDelete [(str "alice", ⟨1, 0, false⟩), (str "bob", ⟨2, 0, false⟩)] (str "alice"),
          []⟩
        (str "INFO " ++ str "alice" ++ str " disconnected") none :=
  C2_teardown_idempotent ⟨[(str "alice", ⟨1, 0, false⟩), (str "bob", ⟨2, 0, false⟩)], []⟩ 1
    (str "alice") (by decide) (by decide) (by decide) (by decide)

/-- C3: during teardown of an authenticated session the username is deleted
from the registry before the departure broadcast is computed, the departed name
is no key of the map the broadcast iterates, and immediately afterwards a LOGIN
with that name from a fresh connection succeeds. -/
theorem C3_removal_before_broadcast (st : ServerState) (sock : Nat) (name : Str)
    (sock2 now : Nat)
    (hkeys : (st.users.map Prod.fst).Nodup)
    (hflags : ∀ p ∈ st.users, p.2.disconnecting = false)
    (hu : getUsernameBySocket st.users sock = some name)
    (hfresh : ∀ p ∈ st.users, p.2.socket ≠ sock2)
    (hs2a : sock2 ≠ sock) (hs2b : sock2 ∉ st.destroyed)
    (hname1 : name ≠ []) (hname2 : jsTrimList name = name) :
    (handleDisconnect st sock).1.users = mapDelete st.users name ∧
    mapHas (mapDelete st.users name) name = false ∧
    (handleDisconnect st sock).2 =
      broadcast ⟨mapDelete st.users name, st.destroyed⟩
        (str "INFO " ++ name ++ str " disconnected") none ∧
    handleCommand (handleDisconnect st sock).1 sock2 (str "LOGIN " ++ name) now =
      (⟨mapDelete st.users name ++ [(name, ⟨sock2, now, false⟩)],
          (handleDisconnect st sock).1.destroyed⟩,
        [(sock2, str "OK")]) := by
  have hhas : mapHas (mapDelete st.users name) name = false :=
    mapHas_false_iff.mpr (mapGet_mapDelete_self hkeys)
  refine ⟨?_, hhas, ?_, ?_⟩
  · rw [handleDisconnect_some hu hflags]
    exact destroySocket_users _ _
  · rw [handleDisconnect_some hu hflags]
  · have husers : (handleDisconnect st sock).1.users = mapDelete st.users name := by
      rw [handleDisconnect_some hu hflags]
      exact destroySocket_users _ _
    have huser2 : getUsernameBySocket (handleDisconnect st sock).1.users sock2 = none := by
      rw [husers, getUsernameBySocket_eq_none_iff]
      intro p hp
      exact hfresh p ((mapDelete_sublist st.users name).subset hp)
    have hdest2 : sock2 ∉ (handleDisconnect st sock).1.destroyed := by
      rw [handleDisconnect_some hu hflags]
      intro hmem
      rcases mem_destroySocket_destroyed.mp hmem with h | h
      · exact hs2a h
      · exact hs2b h
    have hlf := handleCommand_login_fresh (handleDisconnect st sock).1 sock2 now name
      hname1 hname2 huser2 (husers ▸ hhas) hdest2
    rw [hlf, husers]

/-- Witness for C3: after alice's teardown, a fresh connection logs in as
alice successfully. -/
theorem C3_removal_before_broadcast_witness :
    (handleDisconnect ⟨[(str "alice", ⟨1, 0, false⟩), (str "bob", ⟨2, 0, false⟩)], []⟩
        1).1.users =
      mapDelete [(str "alice", ⟨1, 0, false⟩), (str "bob", ⟨2, 0, false⟩)] (str "alice") ∧
    mapHas (mapDelete [(str "alice", ⟨1, 0, false⟩), (str "bob", ⟨2, 0, false⟩)] (str "alice"))
      (str "alice") = false ∧
    (handleDisconnect ⟨[(str "alice", ⟨1, 0, false⟩), (str "bob", ⟨2, 0, false⟩)], []⟩ 1).2 =
      broadcast
        ⟨mapDelete [(str "alice", ⟨1, 0, false⟩), (str "bob", ⟨2, 0, false⟩)] (str "alice"),
          []⟩
        (str "INFO " ++ str "alice" ++ str " disconnected") none ∧
    handleCommand
        (handleDisconnect ⟨[(str "alice", ⟨1, 0, false⟩), (str "bob", ⟨2, 0, false⟩)], []⟩ 1).1
        3 (str "LOGIN " ++ str "alice") 9 =
      (⟨mapDelete [(str "alice", ⟨1, 0, false⟩), (str "bob", ⟨2, 0, false⟩)] (str "alice") ++
            [(str "alice", ⟨3, 9, false⟩)],
          (handleDisconnect ⟨[(str "alice", ⟨1, 0, false⟩), (str "bob", ⟨2, 0, false⟩)], []⟩
              1).1.destroyed⟩,
        [(3, str "OK")]) :=
  C3_removal_before_broadcast
    ⟨[(str "alice", ⟨1, 0, false⟩), (str "bob", ⟨2, 0, false⟩)], []⟩ 1 (str "alice") 3 9
    (by decide) (by decide) (by decide) (by decide) (by decide) (by decide)
    (by decide) (by decide)

/-! ### Corollaries of activity refresh preserving the shape of the map -/

theorem updateActivity_getUsername (st : ServerState) (sock now s : Nat) :
    getUsernameBySocket (updateActivity st sock now).users s = getUsernameBySocket st.users s :=
  shape_getUsernameBySocket (updateActivity_shape st sock now) s

theorem updateActivity_mapHas (st : ServerState) (sock now : Nat) (k : Str) :
    mapHas (updateActivity st sock now).users k = mapHas st.users k :=
  shape_mapHas (updateActivity_shape st sock now) k

theorem updateActivity_mapGet_view (st : ServerState) (sock now : Nat) (k : Str) :
    ((mapGet (updateActivity st sock now).users k).map fun d => (d.socket, d.disconnecting)) =
      ((mapGet st.users k).map fun d => (d.socket, d.disconnecting)) :=
  shape_mapGet (updateActivity_shape st sock now) k

theorem updateActivity_length (st : ServerState) (sock now : Nat) :
    (updateActivity st sock now).users.length = st.users.length :=
  shape_length (updateActivity_shape st sock now)

/-! ### Dispatch equations for handleCommand -/

/-- C8: any non-empty command line whose command word is not LOGIN, arriving on
a connection that has no session, is answered with exactly ERR not-logged-in
and leaves the whole state unchanged. -/
theorem C8_not_logged_in (st : ServerState) (sock : Nat) (line : Str) (now : Nat)
    (hmsg : jsTrimList line ≠ [])
    (hcmd : upperTok ((splitChar (jsTrimList line)).headD []) ≠ str "LOGIN")
    (huser : getUsernameBySocket st.users sock = none)
    (hdest : sock ∉ st.destroyed) :
    handleCommand st sock line now = (st, [(sock, str "ERR not-logged-in")]) := by
  have hupd := updateActivity_no_user now huser
  have e0 := eq_false hmsg
  have e1 := eq_false hcmd
  have e2 := eq_false hdest
  simp only [handleCommand, e0, if_false, hupd, huser, e1, sendToSocket, e2]

/-- Witness for C8: a MSG before login on an empty server. -/
theorem C8_not_logged_in_witness :
    handleCommand ⟨[(str "bob", ⟨2, 0, false⟩)], []⟩ 1 (str "MSG hi") 7 =
      (⟨[(str "bob", ⟨2, 0, false⟩)], []⟩, [(1, str "ERR not-logged-in")]) :=
  C8_not_logged_in ⟨[(str "bob", ⟨2, 0, false⟩)], []⟩ 1 (str "MSG hi") 7
    (by decide) (by decide) (by decide) (by decide)

/-- Reduction of handleCommand to the DM branch for a logged-in sender. -/
theorem handleCommand_dm_eq (st : ServerState) (sock : Nat) (line : Str) (now : Nat)
    (uname : Str)
    (hmsg : jsTrimList line ≠ [])
    (hcmd : upperTok ((splitChar (jsTrimList line)).headD []) = str "DM")
    (hu : getUsernameBySocket st.users sock = some uname) :
    handleCommand st sock line now =
      (let st1 := updateActivity st sock now
       let parts := splitChar (jsTrimList line)
       if parts.length < 3 then (st1, sendToSocket st1 sock (str "ERR invalid-dm-format"))
       else
         let targetUsername := parts.getD 1 []
         let text := jsTrimList (joinSp (parts.drop 2))
         if text = [] then (st1, sendToSocket st1 sock (str "ERR empty-message"))
         else
           match mapGet st1.users targetUsername with
           | none => (st1, sendToSocket st1 sock (str "ERR user-not-found"))
           | some targetData =>
             if targetData.socket ∈ st1.destroyed then
               (st1, sendToSocket st1 sock (str "ERR user-not-found"))
             else
               (st1, sendToSocket st1 targetData.socket
                       (str "DM " ++ uname ++ str " " ++ text) ++
                     sendToSocket st1 sock (str "DM-SENT " ++ targetUsername))) := by
  have hu1 : getUsernameBySocket (updateActivity st sock now).users sock = some uname := by
    rw [updateActivity_getUsername]; exact hu
  have e0 := eq_false hmsg
  have e1 : (str "DM" = str "LOGIN") = False := eq_false (by decide)
  have e2 : (str "DM" = str "MSG") = False := eq_false (by decide)
  have e3 : (str "DM" = str "WHO") = False := eq_false (by decide)
  simp only [handleCommand, e0, if_false, hcmd, e1, e2, e3, hu1, eq_self_iff_true, if_true]

/-- Reduction of handleCommand to the MSG branch for a logged-in sender. -/
theorem handleCommand_msg_eq (st : ServerState) (sock : Nat) (line : Str) (now : Nat)
    (uname : Str)
    (hmsg : jsTrimList line ≠ [])
    (hcmd : upperTok ((splitChar (jsTrimList line)).headD []) = str "MSG")
    (hu : getUsernameBySocket st.users sock = some uname) :
    handleCommand st sock line now =
      (let st1 := updateActivity st sock now
       let text := jsTrimList (joinSp ((splitChar (jsTrimList line)).drop 1))
       if text = [] then (st1, sendToSocket st1 sock (str "ERR empty-message"))
       else (st1, broadcastToAll st1 (str "MSG " ++ uname ++ str " " ++ text))) := by
  have hu1 : getUsernameBySocket (updateActivity st sock now).users sock = some uname := by
    rw [updateActivity_getUsername]; exact hu
  have e0 := eq_false hmsg
  have e1 : (str "MSG" = str "LOGIN") = False := eq_false (by decide)
  simp only [handleCommand, e0, if_false, hcmd, e1, hu1, eq_self_iff_true, if_true]

/-- Reduction of handleCommand to the WHO branch for a logged-in requester. -/
theorem handleCommand_who_eq (st : ServerState) (sock : Nat) (line : Str) (now : Nat)
    (uname : Str)
    (hmsg : jsTrimList line ≠ [])
    (hcmd : upperTok ((splitChar (jsTrimList line)).headD []) = str "WHO")
    (hu : getUsernameBySocket st.users sock = some uname) :
    handleCommand st sock line now =
      (let st1 := updateActivity st sock now
       if st1.users.length = 0 then (st1, sendToSocket st1 sock (str "INFO no-users-online"))
       else (st1, st1.users.flatMap fun p => sendToSocket st1 sock (str "USER " ++ p.1))) := by
  have hu1 : getUsernameBySocket (updateActivity st sock now).users sock = some uname := by
    rw [updateActivity_getUsername]; exact hu
  have e0 := eq_false hmsg
  have e1 : (str "WHO" = str "LOGIN") = False := eq_false (by decide)
  have e2 : (str "WHO" = str "MSG") = False := eq_false (by decide)
  simp only [handleCommand, e0, if_false, hcmd, e1, e2, hu1, eq_self_iff_true, if_true]

/-- Reduction of handleCommand to not-logged-in for a session-less connection. -/
theorem handleCommand_nologin_eq (st : ServerState) (sock : Nat) (line : Str) (now : Nat)
    (hmsg : jsTrimList line ≠ [])
    (hcmd : upperTok ((splitChar (jsTrimList line)).headD []) ≠ str "LOGIN")
    (huser : getUsernameBySocket st.users sock = none) :
    handleCommand st sock line now = (st, sendToSocket st sock (str "ERR not-logged-in")) := by
  have hupd := updateActivity_no_user now huser
  have e0 := eq_false hmsg
  have e1 := eq_false hcmd
  simp only [handleCommand, e0, if_false, hupd, huser, e1]

theorem mem_sendToSocket {st : ServerState} {sock2 s : Nat} {msg m : Str}
    (h : (s, m) ∈ sendToSocket st sock2 msg) : s = sock2 ∧ m = msg := by
  rw [sendToSocket] at h
  by_cases hd : sock2 ∈ st.destroyed
  · rw [if_pos hd] at h; simp at h
  · rw [if_neg hd] at h
    rw [List.mem_singleton] at h
    exact ⟨congrArg Prod.fst h, congrArg Prod.snd h⟩

/-- C5: DM error handling. With a logged-in sender: fewer than two arguments
beyond the command word yield ERR invalid-dm-format; an unknown or destroyed
target yields ERR user-not-found to the sender and nothing to anyone else;
otherwise the target receives the DM line and the sender the DM-SENT
acknowledgment as two independent sends. -/
theorem C5_dm_error_handling (st : ServerState) (sock : Nat) (line : Str) (now : Nat)
    (uname : Str)
    (hmsg : jsTrimList line ≠ [])
    (hcmd : upperTok ((splitChar (jsTrimList line)).headD []) = str "DM")
    (hu : getUsernameBySocket st.users sock = some uname)
    (hdest : sock ∉ st.destroyed) :
    ((splitChar (jsTrimList line)).length < 3 →
      handleCommand st sock line now =
        (updateActivity st sock now, [(sock, str "ERR invalid-dm-format")])) ∧
    (3 ≤ (splitChar (jsTrimList line)).length →
      (mapHas st.users ((splitChar (jsTrimList line)).getD 1 []) = false ∨
        (∃ td, mapGet st.users ((splitChar (jsTrimList line)).getD 1 []) = some td ∧
          td.socket ∈ st.destroyed)) →
      handleCommand st sock line now =
        (updateActivity st sock now, [(sock, str "ERR user-not-found")])) ∧
    (3 ≤ (splitChar (jsTrimList line)).length →
      ∀ td, mapGet st.users ((splitChar (jsTrimList line)).getD 1 []) = some td →
        td.socket ∉ st.destroyed →
        handleCommand st sock line now =
          (updateActivity st sock now,
            [(td.socket, str "DM " ++ uname ++ str " " ++
                jsTrimList (joinSp ((splitChar (jsTrimList line)).drop 2))),
             (sock, str "DM-SENT " ++ (splitChar (jsTrimList line)).getD 1 [])])) := by
  have hrw := handleCommand_dm_eq st sock line now uname hmsg hcmd hu
  have hdestroyed := updateActivity_destroyed st sock now
  refine ⟨?_, ?_, ?_⟩
  · intro hlen
    rw [hrw]
    simp only [eq_true hlen, if_true, sendToSocket, hdestroyed, eq_false hdest, if_false]
  · intro hlen hcase
    have hlen2 : ¬((splitChar (jsTrimList line)).length < 3) := by omega
    have htext := dm_text_ne_nil hmsg hlen
    rw [hrw]
    simp only [eq_false hlen2, if_false, eq_false htext]
    rcases hcase with hnone | ⟨td, hget, hdead⟩
    · have hnone2 : mapGet (updateActivity st sock now).users
          ((splitChar (jsTrimList line)).getD 1 []) = none := by
        rw [← mapHas_false_iff, updateActivity_mapHas]
        exact hnone
      simp only [hnone2, sendToSocket, hdestroyed, eq_false hdest, if_false]
    · have hv := updateActivity_mapGet_view st sock now ((splitChar (jsTrimList line)).getD 1 [])
      rw [hget] at hv
      cases h1 : mapGet (updateActivity st sock now).users
          ((splitChar (jsTrimList line)).getD 1 []) with
      | none => rw [h1] at hv; simp at hv
      | some td2 =>
        rw [h1] at hv
        simp only [Option.map_some', Option.some.injEq, Prod.mk.injEq] at hv
        have hsock2 : td2.socket ∈ st.destroyed := by rw [hv.1]; exact hdead
        simp only [h1, hdestroyed, eq_true hsock2, if_true, sendToSocket,
          eq_false hdest, if_false]
  · intro hlen td hget hlive
    have hlen2 : ¬((splitChar (jsTrimList line)).length < 3) := by omega
    have htext := dm_text_ne_nil hmsg hlen
    rw [hrw]
    simp only [eq_false hlen2, if_false, eq_false htext]
    have hv := updateActivity_mapGet_view st sock now ((splitChar (jsTrimList line)).getD 1 [])
    rw [hget] at hv
    cases h1 : mapGet (updateActivity st sock now).users
        ((splitChar (jsTrimList line)).getD 1 []) with
    | none => rw [h1] at hv; simp at hv
    | some td2 =>
      rw [h1] at hv
      simp only [Option.map_some', Option.some.injEq, Prod.mk.injEq] at hv
      have hsock2 : td2.socket ∉ st.destroyed := by rw [hv.1]; exact hlive
      simp only [h1, hdestroyed, eq_false hsock2, if_false, sendToSocket,
        eq_false hdest, hv.1, eq_false hlive]
      rfl

/-- Witness for C5: a successful DM from alice to bob. -/
theorem C5_dm_error_handling_witness :
    handleCommand ⟨[(str "alice", ⟨1, 0, false⟩), (str "bob", ⟨2, 0, false⟩)], []⟩
        1 (str "DM bob hi") 5 =
      (⟨[(str "alice", ⟨1, 5, false⟩), (str "bob", ⟨2, 0, false⟩)], []⟩,
        [(2, str "DM alice hi"), (1, str "DM-SENT bob")]) := by
  have h := (C5_dm_error_handling
    ⟨[(str "alice", ⟨1, 0, false⟩), (str "bob", ⟨2, 0, false⟩)], []⟩ 1 (str "DM bob hi") 5
    (str "alice") (by decide) (by decide) (by decide) (by decide)).2.2
    (by decide) ⟨2, 0, false⟩ (by decide) (by decide)
  exact h.trans (by decide)

/-! ### Head-character disagreements between protocol lines -/

theorem cons_head_ne {c1 c2 : Char} {t1 t2 : Str} (h : c1 ≠ c2) : c1 :: t1 ≠ c2 :: t2 := by
  intro he
  injection he with h1 _
  exact h h1

theorem err_empty_ne_dm (a b : Str) :
    str "ERR empty-message" ≠ str "DM " ++ a ++ str " " ++ b := by
  have h1 : str "ERR empty-message" = 'E' :: str "RR empty-message" := rfl
  have h2 : str "DM " ++ a ++ str " " ++ b = 'D' :: (str "M " ++ a ++ str " " ++ b) := rfl
  rw [h1, h2]
  exact cons_head_ne (by decide)

theorem err_empty_ne_dmsent (t : Str) :
    str "ERR empty-message" ≠ str "DM-SENT " ++ t := by
  have h1 : str "ERR empty-message" = 'E' :: str "RR empty-message" := rfl
  have h2 : str "DM-SENT " ++ t = 'D' :: (str "M-SENT " ++ t) := rfl
  rw [h1, h2]
  exact cons_head_ne (by decide)

/-- C10: the ERR empty-message branch of the DM handler is dead code. For any
input line whose command word parses to DM, no send of ERR empty-message is
produced: a trimmed line with at least three tokens always has non-empty text. -/
theorem C10_dm_empty_message_unreachable (st : ServerState) (sock : Nat) (line : Str)
    (now : Nat)
    (hcmd : upperTok ((splitChar (jsTrimList line)).headD []) = str "DM") :
    ∀ s, (s, str "ERR empty-message") ∉ (handleCommand st sock line now).2 := by
  intro s
  by_cases hmsg : jsTrimList line = []
  · simp [handleCommand, hmsg]
  · cases hu : getUsernameBySocket st.users sock with
    | none =>
      rw [handleCommand_nologin_eq st sock line now hmsg (by rw [hcmd]; decide) hu]
      intro hmem
      have h := (mem_sendToSocket hmem).2
      exact absurd h (by decide)
    | some uname =>
      rw [handleCommand_dm_eq st sock line now uname hmsg hcmd hu]
      by_cases hlen : (splitChar (jsTrimList line)).length < 3
      · simp only [eq_true hlen, if_true]
        intro hmem
        exact absurd ((mem_sendToSocket hmem).2) (by decide)
      · have hlen2 : 3 ≤ (splitChar (jsTrimList line)).length := by omega
        have htext := dm_text_ne_nil hmsg hlen2
        simp only [eq_false hlen, if_false, eq_false htext]
        cases h1 : mapGet (updateActivity st sock now).users
            ((splitChar (jsTrimList line)).getD 1 []) with
        | none =>
          simp only [h1]
          intro hmem
          exact absurd ((mem_sendToSocket hmem).2) (by decide)
        | some td =>
          simp only [h1]
          by_cases hd : td.socket ∈ (updateActivity st sock now).destroyed
          · simp only [eq_true hd, if_true]
            intro hmem
            exact absurd ((mem_sendToSocket hmem).2) (by decide)
          · simp only [eq_false hd, if_false]
            intro hmem
            rcases List.mem_append.mp hmem with h | h
            · exact absurd ((mem_sendToSocket h).2) (err_empty_ne_dm _ _)
            · exact absurd ((mem_sendToSocket h).2) (err_empty_ne_dmsent _)

/-- Witness for C10 on a concrete server and DM line. -/
theorem C10_dm_empty_message_unreachable_witness :
    (1, str "ERR empty-message") ∉
      (handleCommand ⟨[(str "alice", ⟨1, 0, false⟩)], []⟩ 1 (str "DM bob hi") 4).2 :=
  C10_dm_empty_message_unreachable ⟨[(str "alice", ⟨1, 0, false⟩)], []⟩ 1 (str "DM bob hi") 4
    (by decide) 1

/-! ### The broadcast of MSG -/

theorem broadcastToAll_updateActivity (st : ServerState) (sock now : Nat) (msg : Str) :
    broadcastToAll (updateActivity st sock now) msg =
      st.users.filterMap fun p =>
        if p.2.socket ∈ st.destroyed then none else some (p.2.socket, msg) := by
  have hsocks := shape_socks (updateActivity_shape st sock now)
  rw [broadcastToAll]
  simp only [updateActivity_destroyed]
  have key : ∀ (m : List (Str × UserData)),
      (m.filterMap fun p =>
        if p.2.socket ∈ st.destroyed then none else some (p.2.socket, msg)) =
        ((m.map fun p => p.2.socket).filterMap fun s2 =>
          if s2 ∈ st.destroyed then none else some (s2, msg)) := by
    intro m
    rw [List.filterMap_map]
    rfl
  rw [key, key, hsocks]

theorem msg_out_fst_sublist (users : List (Str × UserData)) (dest : List Nat) (msg : Str) :
    ((users.filterMap fun p =>
        if p.2.socket ∈ dest then none else some (p.2.socket, msg)).map Prod.fst).Sublist
      (users.map fun p => p.2.socket) := by
  induction users with
  | nil => simp
  | cons p rest ih =>
    rw [List.filterMap_cons, List.map_cons]
    by_cases h : p.2.socket ∈ dest
    · rw [if_pos h]
      exact ih.cons _
    · rw [if_neg h, List.map_cons]
      exact ih.cons₂ _

/-- C6: a MSG with non-empty text from a logged-in user is delivered to every
currently-registered live connection, the sender's own included, each exactly
once and with exactly the line MSG sender text; empty text yields
ERR empty-message to the sender and no broadcast. -/
theorem C6_msg_broadcast (st : ServerState) (sock : Nat) (line : Str) (now : Nat)
    (uname : Str)
    (hmsg : jsTrimList line ≠ [])
    (hcmd : upperTok ((splitChar (jsTrimList line)).headD []) = str "MSG")
    (hu : getUsernameBySocket st.users sock = some uname)
    (hdest : sock ∉ st.destroyed) :
    (jsTrimList (joinSp ((splitChar (jsTrimList line)).drop 1)) = [] →
      handleCommand st sock line now =
        (updateActivity st sock now, [(sock, str "ERR empty-message")])) ∧
    (jsTrimList (joinSp ((splitChar (jsTrimList line)).drop 1)) ≠ [] →
      handleCommand st sock line now =
        (updateActivity st sock now,
          st.users.filterMap fun p =>
            if p.2.socket ∈ st.destroyed then none
            else some (p.2.socket, str "MSG " ++ uname ++ str " " ++
              jsTrimList (joinSp ((splitChar (jsTrimList line)).drop 1)))) ∧
      (∀ p ∈ st.users, p.2.socket ∉ st.destroyed →
        (p.2.socket, str "MSG " ++ uname ++ str " " ++
          jsTrimList (joinSp ((splitChar (jsTrimList line)).drop 1))) ∈
            (handleCommand st sock line now).2) ∧
      ((sock, str "MSG " ++ uname ++ str " " ++
          jsTrimList (joinSp ((splitChar (jsTrimList line)).drop 1))) ∈
        (handleCommand st sock line now).2) ∧
      (∀ q ∈ (handleCommand st sock line now).2,
        q.2 = str "MSG " ++ uname ++ str " " ++
          jsTrimList (joinSp ((splitChar (jsTrimList line)).drop 1))) ∧
      ((st.users.map fun p => p.2.socket).Nodup →
        ((handleCommand st sock line now).2.map Prod.fst).Nodup)) := by
  have hrw := handleCommand_msg_eq st sock line now uname hmsg hcmd hu
  constructor
  · intro htext0
    rw [hrw]
    simp only [eq_true htext0, if_true, sendToSocket, updateActivity_destroyed,
      eq_false hdest, if_false]
  · intro htext
    have heq : handleCommand st sock line now =
        (updateActivity st sock now,
          st.users.filterMap fun p =>
            if p.2.socket ∈ st.destroyed then none
            else some (p.2.socket, str "MSG " ++ uname ++ str " " ++
              jsTrimList (joinSp ((splitChar (jsTrimList line)).drop 1)))) := by
      rw [hrw]
      simp only [eq_false htext, if_false, broadcastToAll_updateActivity]
    refine ⟨heq, ?_, ?_, ?_, ?_⟩
    · intro p hp hlive
      rw [heq]
      exact List.mem_filterMap.mpr ⟨p, hp, by rw [if_neg hlive]⟩
    · obtain ⟨d, hd, hds⟩ := getUsernameBySocket_mem hu
      rw [heq]
      refine List.mem_filterMap.mpr ⟨(uname, d), hd, ?_⟩
      rw [if_neg (by rw [hds]; exact hdest), hds]
    · intro q hq
      rw [heq] at hq
      obtain ⟨p, _, hfp⟩ := List.mem_filterMap.mp hq
      by_cases h : p.2.socket ∈ st.destroyed
      · rw [if_pos h] at hfp; exact absurd hfp (by simp)
      · rw [if_neg h] at hfp
        injection hfp with h1
        rw [← h1]
    · intro hsocks
      rw [heq]
      exact (msg_out_fst_sublist st.users st.destroyed _).nodup hsocks

/-- Witness for C6: MSG hi from alice reaches alice and bob. -/
theorem C6_msg_broadcast_witness :
    handleCommand ⟨[(str "alice", ⟨1, 0, false⟩), (str "bob", ⟨2, 0, false⟩)], []⟩ 1
        (str "MSG hi") 6 =
      (⟨[(str "alice", ⟨1, 6, false⟩), (str "bob", ⟨2, 0, false⟩)], []⟩,
        [(1, str "MSG alice hi"), (2, str "MSG alice hi")]) := by
  have h := ((C6_msg_broadcast
    ⟨[(str "alice", ⟨1, 0, false⟩), (str "bob", ⟨2, 0, false⟩)], []⟩ 1 (str "MSG hi") 6
    (str "alice") (by decide) (by decide) (by decide) (by decide)).2 (by decide)).1
  exact h.trans (by decide)

/-! ### WHO -/

/-- Counterexample for C7 as stated: with zero sessions, WHO is answered with
ERR not-logged-in (WHO requires a session, and a session implies a non-empty
registry), not with INFO no-users-online. -/
theorem C7_who_empty_counterexample :
    (handleCommand ⟨[], []⟩ 0 (str "WHO") 0).2 = [(0, str "ERR not-logged-in")] ∧
    (handleCommand ⟨[], []⟩ 0 (str "WHO") 0).2 ≠ [(0, str "INFO no-users-online")] := by
  decide

theorem flatMap_user_lines (m : List (Str × UserData)) (sock : Nat) :
    (m.flatMap fun p => [((sock : Nat), str "USER " ++ p.1)]) =
      m.map fun p => (sock, str "USER " ++ p.1) := by
  induction m with
  | nil => rfl
  | cons p rest ih =>
    rw [List.flatMap_cons, List.map_cons, ih]
    rfl

theorem map_key_fn_congr {m m2 : List (Str × UserData)}
    (h : m.map Prod.fst = m2.map Prod.fst) (f : Str → Send) :
    m.map (fun p => f p.1) = m2.map fun p => f p.1 := by
  have h1 : m.map (fun p => f p.1) = (m.map Prod.fst).map f := by
    rw [List.map_map]; rfl
  have h2 : m2.map (fun p => f p.1) = (m2.map Prod.fst).map f := by
    rw [List.map_map]; rfl
  rw [h1, h2, h]

/-- C7 (amended): WHO with an empty registry is answered ERR not-logged-in,
since WHO requires a session and a session implies a non-empty registry; a
logged-in requester receives exactly one USER name line per registered
session, in registry order, the requester's own name included, with no
duplicates when usernames are distinct. -/
theorem C7_who_listing (st : ServerState) (sock : Nat) (line : Str) (now : Nat)
    (hmsg : jsTrimList line ≠ [])
    (hcmd : upperTok ((splitChar (jsTrimList line)).headD []) = str "WHO")
    (hdest : sock ∉ st.destroyed) :
    (st.users = [] →
      handleCommand st sock line now = (st, [(sock, str "ERR not-logged-in")])) ∧
    (∀ uname, getUsernameBySocket st.users sock = some uname →
      handleCommand st sock line now =
        (updateActivity st sock now, st.users.map fun p => (sock, str "USER " ++ p.1)) ∧
      (sock, str "USER " ++ uname) ∈ (handleCommand st sock line now).2 ∧
      ((st.users.map Prod.fst).Nodup → (handleCommand st sock line now).2.Nodup)) := by
  constructor
  · intro hempty
    have huser : getUsernameBySocket st.users sock = none := by
      rw [hempty]; rfl
    rw [handleCommand_nologin_eq st sock line now hmsg (by rw [hcmd]; decide) huser,
      sendToSocket_live _ hdest]
  · intro uname hu
    obtain ⟨d, hd, _⟩ := getUsernameBySocket_mem hu
    have hne : st.users ≠ [] := List.ne_nil_of_mem hd
    have main : handleCommand st sock line now =
        (updateActivity st sock now, st.users.map fun p => (sock, str "USER " ++ p.1)) := by
      rw [handleCommand_who_eq st sock line now uname hmsg hcmd hu]
      have hlen0 : ¬((updateActivity st sock now).users.length = 0) := by
        rw [updateActivity_length]
        intro h
        exact hne (List.length_eq_zero.mp h)
      simp only [eq_false hlen0, if_false, sendToSocket, updateActivity_destroyed,
        eq_false hdest, flatMap_user_lines]
      exact congrArg _
        (map_key_fn_congr (shape_keys (updateActivity_shape st sock now))
          fun u => (sock, str "USER " ++ u))
    refine ⟨main, ?_, ?_⟩
    · rw [main]
      exact List.mem_map.mpr ⟨(uname, d), hd, rfl⟩
    · intro hkeys
      rw [main]
      have hinj : Function.Injective fun u : Str => ((sock : Nat), str "USER " ++ u) := by
        intro a b h
        have h2 := congrArg Prod.snd h
        exact List.append_cancel_left h2
      have hform : (st.users.map fun p => ((sock : Nat), str "USER " ++ p.1)) =
          (st.users.map Prod.fst).map fun u => (sock, str "USER " ++ u) := by
        rw [List.map_map]; rfl
      rw [hform]
      exact hkeys.map hinj

/-- Witness for C7: WHO from alice with two users online. -/
theorem C7_who_listing_witness :
    handleCommand ⟨[(str "alice", ⟨1, 0, false⟩), (str "bob", ⟨2, 0, false⟩)], []⟩ 1
        (str "WHO") 3 =
      (⟨[(str "alice", ⟨1, 3, false⟩), (str "bob", ⟨2, 0, false⟩)], []⟩,
        [(1, str "USER alice"), (1, str "USER bob")]) ∧
    (1, str "USER alice") ∈
      (handleCommand ⟨[(str "alice", ⟨1, 0, false⟩), (str "bob", ⟨2, 0, false⟩)], []⟩ 1
        (str "WHO") 3).2 ∧
    (handleCommand ⟨[(str "alice", ⟨1, 0, false⟩), (str "bob", ⟨2, 0, false⟩)], []⟩ 1
        (str "WHO") 3).2.Nodup := by
  have h := (C7_who_listing
    ⟨[(str "alice", ⟨1, 0, false⟩), (str "bob", ⟨2, 0, false⟩)], []⟩ 1 (str "WHO") 3
    (by decide) (by decide) (by decide)).2 (str "alice") (by decide)
  exact ⟨h.1.trans (by decide), h.2.1, h.2.2 (by decide)⟩

/-! ### A username containing a space is unreachable as a DM target -/

theorem errline_ne_dm_cont {r : Str} (t : Str) : ('E' :: r) ≠ str "DM " ++ t := by
  intro h
  have h2 : str "DM " ++ t = 'D' :: (str "M " ++ t) := rfl
  rw [h2] at h
  injection h with h1 _
  exact absurd h1 (by decide)

theorem dmsent_ne_dm_cont (tgt t : Str) : str "DM-SENT " ++ tgt ≠ str "DM " ++ t := by
  intro h
  have h1 : str "DM-SENT " ++ tgt = 'D' :: 'M' :: '-' :: (str "SENT " ++ tgt) := rfl
  have h2 : str "DM " ++ t = 'D' :: 'M' :: ' ' :: t := rfl
  rw [h1, h2] at h
  injection h with _ h
  injection h with _ h
  injection h with h3 _
  exact absurd h3 (by decide)

/-- C9: the DM target is always a single space-free token, so a registered
username containing a space never matches the target of a DM, and no DM
delivery line is ever written to that user's connection. -/
theorem C9_spaced_name_no_dm (st : ServerState) (sock : Nat) (line : Str) (now : Nat)
    (name : Str) (d : UserData)
    (hsocks : (st.users.map fun p => p.2.socket).Nodup)
    (hmem : (name, d) ∈ st.users)
    (hspace : ' ' ∈ name)
    (hcmd : upperTok ((splitChar (jsTrimList line)).headD []) = str "DM") :
    ((splitChar (jsTrimList line)).getD 1 [] ≠ name) ∧
    (∀ m, (d.socket, m) ∈ (handleCommand st sock line now).2 →
      ∀ t, m ≠ str "DM " ++ t) := by
  have htarget : (splitChar (jsTrimList line)).getD 1 [] ≠ name := by
    by_cases h1 : 1 < (splitChar (jsTrimList line)).length
    · have hmem2 : (splitChar (jsTrimList line)).getD 1 [] ∈ splitChar (jsTrimList line) := by
        rw [List.getD_eq_getElem _ _ h1]
        exact List.getElem_mem h1
      intro heq
      exact mem_splitChar_no_space hmem2 (heq ▸ hspace)
    · have h2 : (splitChar (jsTrimList line)).length ≤ 1 := by omega
      rw [List.getD_eq_default _ _ h2]
      intro heq
      rw [← heq] at hspace
      simp at hspace
  refine ⟨htarget, ?_⟩
  intro m hm t heq
  subst heq
  by_cases hmsg : jsTrimList line = []
  · have hout : (handleCommand st sock line now).2 = [] := by
      simp [handleCommand, hmsg]
    rw [hout] at hm
    simp at hm
  · cases hu : getUsernameBySocket st.users sock with
    | none =>
      rw [handleCommand_nologin_eq st sock line now hmsg (by rw [hcmd]; decide) hu] at hm
      exact errline_ne_dm_cont t ((mem_sendToSocket hm).2).symm
    | some uname =>
      rw [handleCommand_dm_eq st sock line now uname hmsg hcmd hu] at hm
      by_cases hlen : (splitChar (jsTrimList line)).length < 3
      · simp only [eq_true hlen, if_true] at hm
        exact errline_ne_dm_cont t ((mem_sendToSocket hm).2).symm
      · have hlen2 : 3 ≤ (splitChar (jsTrimList line)).length := by omega
        have htext := dm_text_ne_nil hmsg hlen2
        simp only [eq_false hlen, if_false, eq_false htext] at hm
        cases h1 : mapGet (updateActivity st sock now).users
            ((splitChar (jsTrimList line)).getD 1 []) with
        | none =>
          simp only [h1] at hm
          exact errline_ne_dm_cont t ((mem_sendToSocket hm).2).symm
        | some td =>
          simp only [h1] at hm
          by_cases hd : td.socket ∈ (updateActivity st sock now).destroyed
          · simp only [eq_true hd, if_true] at hm
            exact errline_ne_dm_cont t ((mem_sendToSocket hm).2).symm
          · simp only [eq_false hd, if_false] at hm
            rcases List.mem_append.mp hm with h | h
            · have hx := mem_sendToSocket h
              have hsocks1 : ((updateActivity st sock now).users.map
                  fun p => p.2.socket).Nodup := by
                rw [shape_socks (updateActivity_shape st sock now)]
                exact hsocks
              have hlook : getUsernameBySocket (updateActivity st sock now).users d.socket =
                  some name := by
                rw [updateActivity_getUsername]
                exact getUsernameBySocket_of_mem hsocks hmem
              obtain ⟨d2, hd2, hd2s⟩ := getUsernameBySocket_mem hlook
              have htd : ((splitChar (jsTrimList line)).getD 1 [], td) ∈
                  (updateActivity st sock now).users := mapGet_mem h1
              have hpair : (name, d2) = ((splitChar (jsTrimList line)).getD 1 [], td) :=
                socket_inj_of_nodup hsocks1 hd2 htd (by rw [hd2s, hx.1])
              exact htarget (congrArg Prod.fst hpair).symm
            · have hx := mem_sendToSocket h
              exact dmsent_ne_dm_cont _ t hx.2.symm

/-- Witness for C9: with the spaced name registered, the DM target token of a
concrete DM line differs from it. -/
theorem C9_spaced_name_no_dm_witness :
    (' ' ∈ str "alice smith") ∧
    (splitChar (jsTrimList (str "DM bob hi"))).getD 1 [] ≠ str "alice smith" :=
  ⟨by decide,
    (C9_spaced_name_no_dm
      ⟨[(str "alice smith", ⟨5, 0, false⟩), (str "bob", ⟨2, 0, false⟩)], []⟩ 2
      (str "DM bob hi") 8 (str "alice smith") ⟨5, 0, false⟩
      (by decide) (by decide) (by decide) (by decide)).1⟩

/-! ### The idle sweep -/

theorem selPred_true_iff (now : Nat) (p : Str × UserData) :
    selPred now p = true ↔
      now - p.2.lastActivity > IDLE_TIMEOUT ∧ p.2.disconnecting = false := by
  rw [selPred, Bool.and_eq_true, decide_eq_true_iff, Bool.not_eq_true']

theorem handleDisconnect_flagged {st : ServerState} {sock : Nat} {name : Str}
    (hu : getUsernameBySocket st.users sock = some name)
    (hflag : (mapGet st.users name).any (·.disconnecting) = true) :
    handleDisconnect st sock = (st, []) := by
  simp only [handleDisconnect, hu, hflag, if_true]

theorem handleDisconnect_some2 {st : ServerState} {sock : Nat} {name : Str} {d0 : UserData}
    (hu : getUsernameBySocket st.users sock = some name)
    (hget : mapGet st.users name = some d0) (hflag : d0.disconnecting = false) :
    handleDisconnect st sock =
      (destroySocket ⟨mapDelete st.users name, st.destroyed⟩ sock,
       broadcast ⟨mapDelete st.users name, st.destroyed⟩
         (str "INFO " ++ name ++ str " disconnected") none) := by
  have hgetany : (mapGet st.users name).any (·.disconnecting) = false := by
    rw [hget]
    simpa [Option.any] using hflag
  simp only [handleDisconnect, hu, hgetany]
  rfl

theorem handleDisconnect_destroyed_subset {st : ServerState} {sock x : Nat}
    (h : x ∈ (handleDisconnect st sock).1.destroyed) : x = sock ∨ x ∈ st.destroyed := by
  cases hu : getUsernameBySocket st.users sock with
  | none =>
    rw [handleDisconnect_no_user hu] at h
    exact mem_destroySocket_destroyed.mp h
  | some name =>
    cases hflag : (mapGet st.users name).any (·.disconnecting) with
    | true =>
      rw [handleDisconnect_flagged hu hflag] at h
      exact Or.inr h
    | false =>
      have hred : handleDisconnect st sock =
          (destroySocket ⟨mapDelete st.users name, st.destroyed⟩ sock,
           broadcast ⟨mapDelete st.users name, st.destroyed⟩
             (str "INFO " ++ name ++ str " disconnected") none) := by
        simp only [handleDisconnect, hu, hflag]
        rfl
      rw [hred] at h
      have h2 : x ∈ (destroySocket ⟨mapDelete st.users name, st.destroyed⟩ sock).destroyed := h
      exact (@mem_destroySocket_destroyed ⟨mapDelete st.users name, st.destroyed⟩ sock x).mp h2

theorem foldl_sweepStep_eq (l : List (Str × Nat)) (st0 : ServerState) (out0 : List Send) :
    l.foldl sweepStep (st0, out0) = ((sweepRun st0 l).1, out0 ++ (sweepRun st0 l).2) := by
  induction l generalizing st0 out0 with
  | nil => simp [sweepRun]
  | cons us rest ih =>
    rw [List.foldl_cons, sweepRun]
    simp only [sweepStep, ih, List.append_assoc]

theorem checkIdleUsers_eq_sweepRun (st : ServerState) (now : Nat) :
    checkIdleUsers st now =
      sweepRun st (st.users.filterMap fun p =>
        if selPred now p then some (p.1, p.2.socket) else none) := by
  rw [checkIdleUsers, foldl_sweepStep_eq, List.nil_append]

theorem sel_fst_sublist (users : List (Str × UserData)) (now : Nat) :
    ((users.filterMap fun p =>
        if selPred now p then some (p.1, p.2.socket) else none).map Prod.fst).Sublist
      (users.map Prod.fst) := by
  induction users with
  | nil => simp
  | cons p rest ih =>
    rw [List.filterMap_cons, List.map_cons]
    by_cases h : selPred now p = true
    · rw [if_pos h, List.map_cons]
      exact ih.cons₂ _
    · rw [if_neg h]
      exact ih.cons _

theorem sel_snd_sublist (users : List (Str × UserData)) (now : Nat) :
    ((users.filterMap fun p =>
        if selPred now p then some (p.1, p.2.socket) else none).map Prod.snd).Sublist
      (users.map fun p => p.2.socket) := by
  induction users with
  | nil => simp
  | cons p rest ih =>
    rw [List.filterMap_cons, List.map_cons]
    by_cases h : selPred now p = true
    · rw [if_pos h, List.map_cons]
      exact ih.cons₂ _
    · rw [if_neg h]
      exact ih.cons _

theorem mem_mapDelete_iff {m : List (Str × UserData)} {k : Str} {p : Str × UserData}
    (hkeys : (m.map Prod.fst).Nodup) : p ∈ mapDelete m k ↔ p ∈ m ∧ p.1 ≠ k := by
  constructor
  · intro h
    refine ⟨(mapDelete_sublist m k).subset h, ?_⟩
    intro he
    have hnone : mapGet (mapDelete m k) k = none := mapGet_mapDelete_self hkeys
    rw [mapGet_eq_none_iff] at hnone
    exact hnone p h he
  · intro ⟨h1, h2⟩
    exact mem_mapDelete_of_mem h1 h2

theorem mem_foldl_mapDelete {names : List Str} {m : List (Str × UserData)}
    (hkeys : (m.map Prod.fst).Nodup) (p : Str × UserData) :
    p ∈ names.foldl mapDelete m ↔ p ∈ m ∧ p.1 ∉ names := by
  induction names generalizing m with
  | nil => simp
  | cons n rest ih =>
    rw [List.foldl_cons]
    have hkeys2 : ((mapDelete m n).map Prod.fst).Nodup :=
      ((mapDelete_sublist m n).map Prod.fst).nodup hkeys
    rw [ih hkeys2, mem_mapDelete_iff hkeys, List.mem_cons]
    constructor
    · intro ⟨⟨h1, h2⟩, h3⟩
      exact ⟨h1, by
        intro hc
        rcases hc with hc | hc
        · exact h2 hc
        · exact h3 hc⟩
    · intro ⟨h1, h2⟩
      exact ⟨⟨h1, fun hc => h2 (Or.inl hc)⟩, fun hc => h2 (Or.inr hc)⟩

theorem sweepRun_users (sel2 : List (Str × Nat)) (stc : ServerState)
    (hkeys : (stc.users.map Prod.fst).Nodup)
    (hsocks : (stc.users.map fun p => p.2.socket).Nodup)
    (hsel : ∀ us ∈ sel2,
      ∃ d, (us.1, d) ∈ stc.users ∧ d.socket = us.2 ∧ d.disconnecting = false)
    (hnd : (sel2.map Prod.fst).Nodup) :
    (sweepRun stc sel2).1.users = (sel2.map Prod.fst).foldl mapDelete stc.users := by
  induction sel2 generalizing stc with
  | nil => rfl
  | cons us rest ih =>
    obtain ⟨d, hmem, hds, hflag⟩ := hsel us (List.mem_cons_self _ _)
    have hu : getUsernameBySocket stc.users us.2 = some us.1 := by
      rw [← hds]
      exact getUsernameBySocket_of_mem hsocks hmem
    have hget : mapGet stc.users us.1 = some d := mapGet_of_mem_nodup hkeys hmem
    have hred := handleDisconnect_some2 hu hget hflag
    have heq : (handleDisconnect stc us.2).1.users = mapDelete stc.users us.1 := by
      rw [hred]
      exact destroySocket_users _ _
    rw [List.map_cons] at hnd
    have hnd2 := List.nodup_cons.mp hnd
    have hkeys2 : ((handleDisconnect stc us.2).1.users.map Prod.fst).Nodup := by
      rw [heq]
      exact ((mapDelete_sublist stc.users us.1).map Prod.fst).nodup hkeys
    have hsocks2 : ((handleDisconnect stc us.2).1.users.map fun p => p.2.socket).Nodup := by
      rw [heq]
      exact ((mapDelete_sublist stc.users us.1).map fun p => p.2.socket).nodup hsocks
    have hsel2 : ∀ us2 ∈ rest,
        ∃ d2, (us2.1, d2) ∈ (handleDisconnect stc us.2).1.users ∧
          d2.socket = us2.2 ∧ d2.disconnecting = false := by
      intro us2 hus2
      obtain ⟨d2, hmem2, hds2, hflag2⟩ := hsel us2 (List.mem_cons.mpr (Or.inr hus2))
      have hne : us2.1 ≠ us.1 := by
        intro he
        exact hnd2.1 (he ▸ List.mem_map.mpr ⟨us2, hus2, rfl⟩)
      refine ⟨d2, ?_, hds2, hflag2⟩
      rw [heq]
      exact mem_mapDelete_of_mem hmem2 hne
    have hrec := ih (handleDisconnect stc us.2).1 hkeys2 hsocks2 hsel2 hnd2.2
    rw [heq] at hrec
    simp only [sweepRun, List.map_cons, List.foldl_cons]
    exact hrec

theorem sweepRun_info_sent (sel2 : List (Str × Nat)) (stc : ServerState)
    (hnd : (sel2.map Prod.snd).Nodup)
    (hlive : ∀ us ∈ sel2, us.2 ∉ stc.destroyed) :
    ∀ us ∈ sel2,
      (us.2, str "INFO disconnected-due-to-inactivity") ∈ (sweepRun stc sel2).2 := by
  induction sel2 generalizing stc with
  | nil =>
    intro us h
    simp at h
  | cons us0 rest ih =>
    intro us hus
    rw [List.map_cons] at hnd
    have hnd2 := List.nodup_cons.mp hnd
    simp only [sweepRun]
    rcases List.mem_cons.mp hus with h | h
    · subst h
      rw [sendToSocket_live _ (hlive us (List.mem_cons_self _ _))]
      exact List.mem_append.mpr
        (Or.inl (List.mem_append.mpr (Or.inl (List.mem_singleton.mpr rfl))))
    · have hlive2 : ∀ us2 ∈ rest, us2.2 ∉ (handleDisconnect stc us0.2).1.destroyed := by
        intro us2 hus2 hmem
        rcases handleDisconnect_destroyed_subset hmem with he | he
        · exact hnd2.1 (he ▸ List.mem_map.mpr ⟨us2, hus2, rfl⟩)
        · exact hlive us2 (List.mem_cons.mpr (Or.inr hus2)) he
      have hrec := ih (handleDisconnect stc us0.2).1 hnd2.2 hlive2 us h
      exact List.mem_append.mpr (Or.inr hrec)

theorem mem_selNames_iff {st : ServerState} {now : Nat} {p : Str × UserData}
    (hkeys : (st.users.map Prod.fst).Nodup) (hp : p ∈ st.users) :
    p.1 ∈ ((st.users.filterMap fun q =>
        if selPred now q then some (q.1, q.2.socket) else none).map Prod.fst) ↔
      selPred now p = true := by
  constructor
  · intro h
    obtain ⟨us, hus, hfst⟩ := List.mem_map.mp h
    obtain ⟨q, hq, hqf⟩ := List.mem_filterMap.mp hus
    by_cases hsel : selPred now q = true
    · rw [if_pos hsel] at hqf
      injection hqf with h1
      have hq1 : q.1 = p.1 := by rw [← h1] at hfst; exact hfst
      have hqp : q = p := List.inj_on_of_nodup_map hkeys hq hp hq1
      rw [← hqp]
      exact hsel
    · rw [if_neg hsel] at hqf
      exact absurd hqf (by simp)
  · intro h
    exact List.mem_map.mpr ⟨(p.1, p.2.socket),
      List.mem_filterMap.mpr ⟨p, hp, by rw [if_pos h]⟩, rfl⟩

/-- C4: each idle-sweep cycle selects exactly the sessions that are inactive
beyond the threshold and not already disconnecting, computes the whole
selection from the pre-state before any teardown, processes each selected
session as a best-effort idle notice followed by that session's teardown, and
leaves exactly the non-selected sessions registered, the evicted names free. -/
theorem C4_idle_sweep (st : ServerState) (now : Nat)
    (hkeys : (st.users.map Prod.fst).Nodup)
    (hsocks : (st.users.map fun p => p.2.socket).Nodup) :
    (∀ u s2, (u, s2) ∈ (st.users.filterMap fun p =>
        if selPred now p then some (p.1, p.2.socket) else none) ↔
      ∃ d, (u, d) ∈ st.users ∧ d.socket = s2 ∧
        now - d.lastActivity > IDLE_TIMEOUT ∧ d.disconnecting = false) ∧
    checkIdleUsers st now =
      sweepRun st (st.users.filterMap fun p =>
        if selPred now p then some (p.1, p.2.socket) else none) ∧
    (∀ p, p ∈ (checkIdleUsers st now).1.users ↔
      p ∈ st.users ∧ selPred now p = false) ∧
    (∀ us ∈ (st.users.filterMap fun p =>
        if selPred now p then some (p.1, p.2.socket) else none),
      mapHas (checkIdleUsers st now).1.users us.1 = false) ∧
    ((∀ p ∈ st.users, p.2.socket ∉ st.destroyed) →
      ∀ us ∈ (st.users.filterMap fun p =>
        if selPred now p then some (p.1, p.2.socket) else none),
        (us.2, str "INFO disconnected-due-to-inactivity") ∈ (checkIdleUsers st now).2) := by
  have hsel0 : ∀ us ∈ (st.users.filterMap fun p =>
      if selPred now p then some (p.1, p.2.socket) else none),
      ∃ d, (us.1, d) ∈ st.users ∧ d.socket = us.2 ∧ d.disconnecting = false := by
    intro us hus
    obtain ⟨q, hq, hqf⟩ := List.mem_filterMap.mp hus
    by_cases hp : selPred now q = true
    · rw [if_pos hp] at hqf
      injection hqf with h1
      refine ⟨q.2, ?_, ?_, ((selPred_true_iff now q).mp hp).2⟩
      · rw [← h1]
        exact hq
      · rw [← h1]
    · rw [if_neg hp] at hqf
      exact absurd hqf (by simp)
  have hndf : (((st.users.filterMap fun p =>
      if selPred now p then some (p.1, p.2.socket) else none).map Prod.fst)).Nodup :=
    (sel_fst_sublist st.users now).nodup hkeys
  have husers : (checkIdleUsers st now).1.users =
      (((st.users.filterMap fun p =>
        if selPred now p then some (p.1, p.2.socket) else none).map Prod.fst)).foldl
          mapDelete st.users := by
    rw [checkIdleUsers_eq_sweepRun]
    exact sweepRun_users _ st hkeys hsocks hsel0 hndf
  have hmemfinal : ∀ p, p ∈ (checkIdleUsers st now).1.users ↔
      p ∈ st.users ∧ selPred now p = false := by
    intro p
    rw [husers, mem_foldl_mapDelete hkeys]
    constructor
    · intro ⟨h1, h2⟩
      refine ⟨h1, ?_⟩
      cases hv : selPred now p with
      | false => rfl
      | true => exact absurd ((mem_selNames_iff hkeys h1).mpr hv) h2
    · intro ⟨h1, h2⟩
      refine ⟨h1, ?_⟩
      intro hc
      have hv := (mem_selNames_iff hkeys h1).mp hc
      rw [hv] at h2
      exact absurd h2 (by decide)
  refine ⟨?_, checkIdleUsers_eq_sweepRun st now, hmemfinal, ?_, ?_⟩
  · intro u s2
    constructor
    · intro h
      obtain ⟨q, hq, hqf⟩ := List.mem_filterMap.mp h
      by_cases hp : selPred now q = true
      · rw [if_pos hp] at hqf
        injection hqf with h1
        obtain ⟨hidle, hflag⟩ := (selPred_true_iff now q).mp hp
        have h2 : q.1 = u := congrArg Prod.fst h1
        have h3 : q.2.socket = s2 := congrArg Prod.snd h1
        exact ⟨q.2, by rw [← h2]; exact hq, h3, hidle, hflag⟩
      · rw [if_neg hp] at hqf
        exact absurd hqf (by simp)
    · intro ⟨d, hmem, hds, hidle, hflag⟩
      refine List.mem_filterMap.mpr ⟨(u, d), hmem, ?_⟩
      rw [if_pos ((selPred_true_iff now (u, d)).mpr ⟨hidle, hflag⟩)]
      rw [hds]
  · intro us hus
    rw [mapHas_false_iff, mapGet_eq_none_iff]
    intro p hp he
    obtain ⟨h1, h2⟩ := (hmemfinal p).mp hp
    have hc : p.1 ∈ ((st.users.filterMap fun q =>
        if selPred now q then some (q.1, q.2.socket) else none).map Prod.fst) := by
      rw [he]
      exact List.mem_map.mpr ⟨us, hus, rfl⟩
    have hv := (mem_selNames_iff hkeys h1).mp hc
    rw [hv] at h2
    exact absurd h2 (by decide)
  · intro hlive us hus
    rw [checkIdleUsers_eq_sweepRun]
    have hnds : (((st.users.filterMap fun p =>
        if selPred now p then some (p.1, p.2.socket) else none).map Prod.snd)).Nodup :=
      (sel_snd_sublist st.users now).nodup hsocks
    have hlive0 : ∀ us2 ∈ (st.users.filterMap fun p =>
        if selPred now p then some (p.1, p.2.socket) else none),
        us2.2 ∉ st.destroyed := by
      intro us2 hus2
      obtain ⟨d, hmem, hds, _⟩ := hsel0 us2 hus2
      rw [← hds]
      exact hlive (us2.1, d) hmem
    exact sweepRun_info_sent _ st hnds hlive0 us hus

/-- Witness for C4: with alice idle beyond the threshold and bob active, the
sweep evicts exactly alice, notifies her first, and frees her name. -/
theorem C4_idle_sweep_witness :
    checkIdleUsers ⟨[(str "alice", ⟨1, 0, false⟩), (str "bob", ⟨2, 65000, false⟩)], []⟩
        70000 =
      (⟨[(str "bob", ⟨2, 65000, false⟩)], [1]⟩,
        [(1, str "INFO disconnected-due-to-inactivity"), (2, str "INFO alice disconnected")]) ∧
    mapHas (checkIdleUsers
        ⟨[(str "alice", ⟨1, 0, false⟩), (str "bob", ⟨2, 65000, false⟩)], []⟩ 70000).1.users
      (str "alice") = false ∧
    (1, str "INFO disconnected-due-to-inactivity") ∈
      (checkIdleUsers
        ⟨[(str "alice", ⟨1, 0, false⟩), (str "bob", ⟨2, 65000, false⟩)], []⟩ 70000).2 := by
  have h := C4_idle_sweep
    ⟨[(str "alice", ⟨1, 0, false⟩), (str "bob", ⟨2, 65000, false⟩)], []⟩ 70000
    (by decide) (by decide)
  refine ⟨h.2.1.trans (by decide), ?_, ?_⟩
  · exact h.2.2.2.1 (str "alice", 1) (by decide)
  · exact h.2.2.2.2 (by decide) (str "alice", 1) (by decide)

/-! ### The structural invariant holds in every reachable state -/

theorem shape_flags {m m2 : List (Str × UserData)} (h : shape m = shape m2) :
    (∀ p ∈ m, p.2.disconnecting = false) ↔ ∀ p ∈ m2, p.2.disconnecting = false := by
  have h2 : m.map (fun p => p.2.disconnecting) = m2.map fun p => p.2.disconnecting := by
    have := congrArg (List.map fun t : Str × Nat × Bool => t.2.2) h
    simpa [shape, List.map_map, Function.comp] using this
  constructor
  · intro ha p hp
    have hmem : p.2.disconnecting ∈ m2.map fun p => p.2.disconnecting :=
      List.mem_map.mpr ⟨p, hp, rfl⟩
    rw [← h2] at hmem
    obtain ⟨q, hq, hqe⟩ := List.mem_map.mp hmem
    rw [← hqe]
    exact ha q hq
  · intro ha p hp
    have hmem : p.2.disconnecting ∈ m.map fun p => p.2.disconnecting :=
      List.mem_map.mpr ⟨p, hp, rfl⟩
    rw [h2] at hmem
    obtain ⟨q, hq, hqe⟩ := List.mem_map.mp hmem
    rw [← hqe]
    exact ha q hq

theorem goodState_updateActivity (st : ServerState) (sock now : Nat) (h : goodState st) :
    goodState (updateActivity st sock now) := by
  obtain ⟨hkeys, hsocks, hflags⟩ := h
  have hsh := updateActivity_shape st sock now
  refine ⟨?_, ?_, ?_⟩
  · rw [shape_keys hsh]; exact hkeys
  · rw [shape_socks hsh]; exact hsocks
  · exact (shape_flags hsh).mpr hflags

theorem goodState_destroySocket (st : ServerState) (sock : Nat) (h : goodState st) :
    goodState (destroySocket st sock) := by
  obtain ⟨hkeys, hsocks, hflags⟩ := h
  refine ⟨?_, ?_, ?_⟩ <;> rw [destroySocket_users]
  · exact hkeys
  · exact hsocks
  · exact hflags

theorem goodState_handleDisconnect (st : ServerState) (sock : Nat) (h : goodState st) :
    goodState (handleDisconnect st sock).1 := by
  obtain ⟨hkeys, hsocks, hflags⟩ := h
  cases hu : getUsernameBySocket st.users sock with
  | none =>
    rw [handleDisconnect_no_user hu]
    exact goodState_destroySocket st sock ⟨hkeys, hsocks, hflags⟩
  | some name =>
    rw [handleDisconnect_some hu hflags]
    show goodState (destroySocket ⟨mapDelete st.users name, st.destroyed⟩ sock)
    refine goodState_destroySocket _ sock ⟨?_, ?_, ?_⟩
    · exact ((mapDelete_sublist _ _).map _).nodup hkeys
    · exact ((mapDelete_sublist _ _).map _).nodup hsocks
    · intro p hp
      exact hflags p ((mapDelete_sublist _ _).subset hp)

theorem goodState_insert {st1 : ServerState} {newU : Str} (sock now : Nat)
    (h : goodState st1)
    (hget : mapGet st1.users newU = none)
    (hsock : getUsernameBySocket st1.users sock = none) :
    goodState { st1 with users := mapSet st1.users newU ⟨sock, now, false⟩ } := by
  obtain ⟨hkeys, hsocks, hflags⟩ := h
  have hfr : mapSet st1.users newU ⟨sock, now, false⟩ = st1.users ++ [(newU, ⟨sock, now, false⟩)] :=
    mapSet_fresh ⟨sock, now, false⟩ hget
  have hknot : ∀ p ∈ st1.users, p.1 ≠ newU := mapGet_eq_none_iff.mp hget
  have hsnot : ∀ p ∈ st1.users, p.2.socket ≠ sock := getUsernameBySocket_eq_none_iff.mp hsock
  refine ⟨?_, ?_, ?_⟩ <;> simp only [hfr]
  · rw [List.map_append, List.nodup_append]
    refine ⟨hkeys, by simp, ?_⟩
    intro a ha
    obtain ⟨p, hp, hpe⟩ := List.mem_map.mp ha
    simp only [List.map_cons, List.map_nil, List.mem_singleton]
    rw [← hpe]
    exact hknot p hp
  · rw [List.map_append, List.nodup_append]
    refine ⟨hsocks, by simp, ?_⟩
    intro a ha
    obtain ⟨p, hp, hpe⟩ := List.mem_map.mp ha
    simp only [List.map_cons, List.map_nil, List.mem_singleton]
    rw [← hpe]
    exact hsnot p hp
  · intro p hp
    rcases List.mem_append.mp hp with h1 | h1
    · exact hflags p h1
    · rw [List.mem_singleton] at h1
      rw [h1]

theorem goodState_handleCommand (st : ServerState) (sock : Nat) (data : Str) (now : Nat)
    (h : goodState st) : goodState (handleCommand st sock data now).1 := by
  have h1 : goodState (updateActivity st sock now) := goodState_updateActivity st sock now h
  simp only [handleCommand]
  split
  · exact h
  · split
    · split
      · exact h1
      · split
        · exact h1
        · split
          · exact h1
          · rename_i husername hname hhas
            refine goodState_insert sock now h1 ?_ husername
            rw [← mapHas_false_iff]
            cases hv : mapHas (updateActivity st sock now).users
                (jsTrimList (joinSp ((splitChar (jsTrimList data)).drop 1))) with
            | false => rfl
            | true => exact absurd hv hhas
    · split
      · exact h1
      · split
        · split
          · exact h1
          · exact h1
        · split
          · split
            · exact h1
            · exact h1
          · split
            · split
              · exact h1
              · split
                · exact h1
                · split
                  · exact h1
                  · split
                    · exact h1
                    · exact h1
            · split
              · exact h1
              · exact h1

theorem goodState_sweep_fold (l : List (Str × Nat)) (acc : ServerState × List Send)
    (h : goodState acc.1) : goodState (l.foldl sweepStep acc).1 := by
  induction l generalizing acc with
  | nil => exact h
  | cons us rest ih =>
    rw [List.foldl_cons]
    exact ih _ (goodState_handleDisconnect acc.1 us.2 h)

theorem goodState_checkIdleUsers (st : ServerState) (now : Nat) (h : goodState st) :
    goodState (checkIdleUsers st now).1 := by
  rw [checkIdleUsers]
  exact goodState_sweep_fold _ (st, []) h

theorem goodState_applyEvent (st : ServerState) (e : Event) (h : goodState st) :
    goodState (applyEvent st e).1 := by
  cases e with
  | line sock data now => exact goodState_handleCommand st sock data now h
  | disconnect sock => exact goodState_handleDisconnect st sock h
  | sweep now => exact goodState_checkIdleUsers st now h

theorem goodState_runEvents (es : List Event) : goodState (runEvents es) := by
  rw [runEvents]
  have main : ∀ (l : List Event) (st0 : ServerState), goodState st0 →
      goodState (l.foldl (fun st e => (applyEvent st e).1) st0) := by
    intro l
    induction l with
    | nil => intro st0 h; exact h
    | cons e rest ih =>
      intro st0 h
      rw [List.foldl_cons]
      exact ih _ (goodState_applyEvent st0 e h)
  exact main es initState ⟨by simp [initState], by simp [initState], by simp [initState]⟩

theorem reachable_goodState {st : ServerState} (h : Reachable st) : goodState st := by
  obtain ⟨es, hes⟩ := h
  rw [← hes]
  exact goodState_runEvents es

/-- Counterexample for C1 as stated: in the reachable state where alice is
logged in on socket 1, a repeated LOGIN alice from that same socket is
answered ERR already-logged-in, not ERR username-taken. -/
theorem C1_counterexample :
    (handleCommand (runEvents [Event.line 1 (str "LOGIN alice") 0]) 1
        (str "LOGIN alice") 5).2 = [(1, str "ERR already-logged-in")] ∧
    (handleCommand (runEvents [Event.line 1 (str "LOGIN alice") 0]) 1
        (str "LOGIN alice") 5).2 ≠ [(1, str "ERR username-taken")] := by
  decide

/-- C1 (amended): every reachable registry binds each username to at most one
session; a repeated LOGIN with a taken name from a connection without a
session is answered ERR username-taken with no state change; a LOGIN from a
connection that already has a session is answered ERR already-logged-in. -/
theorem C1_login_uniqueness :
    (∀ st, Reachable st → (st.users.map Prod.fst).Nodup) ∧
    (∀ st sock (line : Str) (now : Nat), jsTrimList line ≠ [] →
      upperTok ((splitChar (jsTrimList line)).headD []) = str "LOGIN" →
      getUsernameBySocket st.users sock = none →
      jsTrimList (joinSp ((splitChar (jsTrimList line)).drop 1)) ≠ [] →
      mapHas st.users (jsTrimList (joinSp ((splitChar (jsTrimList line)).drop 1))) = true →
      sock ∉ st.destroyed →
      handleCommand st sock line now = (st, [(sock, str "ERR username-taken")])) ∧
    (∀ st sock (line : Str) (now : Nat) uname, jsTrimList line ≠ [] →
      upperTok ((splitChar (jsTrimList line)).headD []) = str "LOGIN" →
      getUsernameBySocket st.users sock = some uname →
      sock ∉ st.destroyed →
      handleCommand st sock line now =
        (updateActivity st sock now, [(sock, str "ERR already-logged-in")])) := by
  refine ⟨fun st h => (reachable_goodState h).1, ?_, ?_⟩
  · intro st sock line now hmsg hcmd huser hname htaken hdest
    have hupd := updateActivity_no_user now huser
    simp only [handleCommand, eq_false hmsg, if_false, hupd, huser, hcmd,
      eq_self_iff_true, if_true, eq_false hname, eq_true htaken, sendToSocket,
      eq_false hdest]
  · intro st sock line now uname hmsg hcmd hu hdest
    have hu1 : getUsernameBySocket (updateActivity st sock now).users sock = some uname := by
      rw [updateActivity_getUsername]
      exact hu
    simp only [handleCommand, eq_false hmsg, if_false, hcmd, eq_self_iff_true,
      if_true, hu1, sendToSocket, updateActivity_destroyed, eq_false hdest]

/-- Witness for C1: a reachable one-user state, a rejected duplicate LOGIN from
a second connection, and a rejected LOGIN from the logged-in connection. -/
theorem C1_login_uniqueness_witness :
    ((runEvents [Event.line 1 (str "LOGIN alice") 0]).users.map Prod.fst).Nodup ∧
    handleCommand (runEvents [Event.line 1 (str "LOGIN alice") 0]) 2
        (str "LOGIN alice") 5 =
      (runEvents [Event.line 1 (str "LOGIN alice") 0], [(2, str "ERR username-taken")]) ∧
    handleCommand (runEvents [Event.line 1 (str "LOGIN alice") 0]) 1
        (str "LOGIN bob") 5 =
      (updateActivity (runEvents [Event.line 1 (str "LOGIN alice") 0]) 1 5,
        [(1, str "ERR already-logged-in")]) :=
  ⟨C1_login_uniqueness.1 _ ⟨[Event.line 1 (str "LOGIN alice") 0], rfl⟩,
    C1_login_uniqueness.2.1 (runEvents [Event.line 1 (str "LOGIN alice") 0]) 2
      (str "LOGIN alice") 5 (by decide) (by decide) (by decide) (by decide) (by decide)
      (by decide),
    C1_login_uniqueness.2.2 (runEvents [Event.line 1 (str "LOGIN alice") 0]) 1
      (str "LOGIN bob") 5 (str "alice") (by decide) (by decide) (by decide) (by decide)⟩

end ChatServer
